import Mathlib

/-!
Verification development for the bibliographic entity-linking pipeline of
evaluation_unique.py (candidate retrieval, scoring, fusion and arbiter
promotion).  The Python source is shallowly embedded: pure helpers become
Lean functions on lists of characters, the SQLite full-text index and the
rapidfuzz similarity primitives are passed in as oracles, and code that can
raise a Python exception returns in the Except monad.
-/

namespace VdEl

/-- ASCII decimal digit test; models the \d character class of the regexes in
evaluation_unique.py on the ASCII strings the pipeline feeds them. -/
def isDigitChar (c : Char) : Bool := decide ('0' ≤ c) && decide (c ≤ '9')

/-- Python str.isdigit on ASCII strings: nonempty and all decimal digits. -/
def pyIsDigitB (s : String) : Bool := !s.data.isEmpty && s.data.all isDigitChar

/-- Whitespace as matched by \s and str.split in Python. -/
def isPySpaceChar (c : Char) : Bool :=
  c = ' ' || c = '\t' || c = '\n' || c = '\x0d' || c = '\x0c' || c = '\x0b'

/-- Lower-case ASCII letter test ([a-z]). -/
def isLowerAZ (c : Char) : Bool := decide ('a' ≤ c) && decide (c ≤ 'z')

/-- Upper-case ASCII letter test ([A-Z]). -/
def isUpperAZ (c : Char) : Bool := decide ('A' ≤ c) && decide (c ≤ 'Z')

/-- Word characters for the \b boundaries of the regexes in the source; the
strings the pipeline feeds those regexes are ASCII at that point. -/
def isWordChar (c : Char) : Bool := isLowerAZ c || isUpperAZ c || isDigitChar c || c = '_'

/-- Builds a string back from an explicit character list. -/
def ofChars (l : List Char) : String := ⟨l⟩

/-- Python str.lower restricted to the character repertoire in play: ASCII
letters plus the two precomposed ligature capitals. -/
def pyLowerChar (c : Char) : Char :=
  if isUpperAZ c then Char.ofNat (c.toNat + 32)
  else if c = 'Æ' then 'æ'
  else if c = 'Œ' then 'œ'
  else c

/-- String version of pyLowerChar. -/
def pyLowerStr (s : String) : String := ofChars (s.data.map pyLowerChar)

/-- Python str.upper restricted to ASCII letters (used on catalog identifiers,
which are ASCII). -/
def pyUpperChar (c : Char) : Char :=
  if isLowerAZ c then Char.ofNat (c.toNat - 32) else c

/-- String version of pyUpperChar. -/
def pyUpperStr (s : String) : String := ofChars (s.data.map pyUpperChar)

/-- Python str.startswith. -/
def strStartsWith (s t : String) : Bool := t.data.isPrefixOf s.data

/-- Substring occurrence on character lists (Python operator in for str). -/
def containsSub (needle : List Char) : List Char → Bool
  | [] => needle.isEmpty
  | c :: t => needle.isPrefixOf (c :: t) || containsSub needle t

/-- Python substring test: needle occurs inside hay. -/
def strContains (hay needle : String) : Bool := containsSub needle.data hay.data

/-- Strips leading and trailing whitespace (Python str.strip). -/
def trimWs (l : List Char) : List Char :=
  ((l.dropWhile isPySpaceChar).reverse.dropWhile isPySpaceChar).reverse

/-- Python str.strip on strings. -/
def pyStrip (s : String) : String := ofChars (trimWs s.data)

/-- Worker for splitWs: accumulates the current token in reverse. -/
def splitWsGo (cur : List Char) : List Char → List (List Char)
  | [] => if cur.isEmpty then [] else [cur.reverse]
  | c :: t =>
    if isPySpaceChar c then
      (if cur.isEmpty then splitWsGo [] t else cur.reverse :: splitWsGo [] t)
    else splitWsGo (c :: cur) t

/-- Python str.split with no argument: whitespace-separated tokens, empties
dropped. -/
def splitWs (s : String) : List String := (splitWsGo [] s.data).map ofChars

/-- Collapse every whitespace run to one space and strip the ends, which is
what re.sub folowed by str.strip does in the source. -/
def wsCollapse (l : List Char) : List Char := List.intercalate [' '] (splitWsGo [] l)

/-- String version of wsCollapse. -/
def wsCollapseStr (s : String) : String := ofChars (wsCollapse s.data)

/-- Joins strings with a separator (str.join in Python). -/
def joinSep (sep : String) (l : List String) : String :=
  ofChars (List.intercalate sep.data (l.map String.data))

/-- Numeric value of an ASCII digit list, most significant digit first. -/
def digitsValNat (l : List Char) : Nat :=
  l.foldl (fun a c => a * 10 + (c.toNat - '0'.toNat)) 0

/-- Numeric value of a string of ASCII digits; only used below guards that
established str.isdigit, mirroring the guarded int(...) calls. -/
def strToNat (s : String) : Nat := digitsValNat s.data

/-- Python int(str) as a fallible conversion: surrounding whitespace and an
optional sign are accepted, anything else raises (returns none).  Digit-group
underscores, which never occur in this pipeline, are not modelled. -/
def pyToInt (s : String) : Option Int :=
  match trimWs s.data with
  | [] => none
  | '-' :: rest =>
    if !rest.isEmpty && rest.all isDigitChar then some (-(digitsValNat rest : Int)) else none
  | '+' :: rest =>
    if !rest.isEmpty && rest.all isDigitChar then some ((digitsValNat rest : Int)) else none
  | l => if l.all isDigitChar then some ((digitsValNat l : Int)) else none

/-- ASCII digit character for a value below ten. -/
def digitChar (n : Nat) : Char := Char.ofNat ('0'.toNat + n % 10)

/-- Fuel-driven decimal digit expansion of a natural number. -/
def natDigitsGo : Nat → Nat → List Char
  | 0, _ => []
  | _ + 1, 0 => []
  | f + 1, m => natDigitsGo f (m / 10) ++ [digitChar (m % 10)]

/-- Decimal rendering of a natural number (Python str on a nonnegative int). -/
def natStr (n : Nat) : String :=
  if n = 0 then ofChars ['0'] else ofChars (natDigitsGo (n + 1) n)

/-- Python str on an int. -/
def intStr (i : Int) : String :=
  if i < 0 then ofChars ['-'] ++ natStr i.natAbs else natStr i.toNat

/-- Byte-order comparison of text as SQLite BINARY collation performs it for
the year-window WHERE clause of strategy 2; on UTF-8 this coincides with
code-point lexicographic order. -/
def lexLe : List Char → List Char → Bool
  | [], _ => true
  | _ :: _, [] => false
  | a :: as, b :: bs =>
    if a = b then lexLe as bs else decide (a.toNat ≤ b.toNat)

/-- SQLite text comparison lhs <= rhs used by the strategy 2 year window. -/
def sqliteTextLe (a b : String) : Bool := lexLe a.data b.data

/-- Modelled from the external unicodedata.normalize NFKD call in
_basic_normalize, restricted to the character repertoire of this catalog
domain: ASCII is unchanged, precomposed Latin letters with a diacritic
decompose into the base letter followed by a combining mark, the long s
decomposes to a plain s, and every other character stays as it is. -/
def nfkdChar (c : Char) : List Char :=
  if c = 'ä' then ['a', '̈'] else if c = 'ö' then ['o', '̈']
  else if c = 'ü' then ['u', '̈'] else if c = 'Ä' then ['A', '̈']
  else if c = 'Ö' then ['O', '̈'] else if c = 'Ü' then ['U', '̈']
  else if c = 'é' then ['e', '́'] else if c = 'è' then ['e', '̀']
  else if c = 'ê' then ['e', '̂'] else if c = 'ë' then ['e', '̈']
  else if c = 'É' then ['E', '́'] else if c = 'á' then ['a', '́']
  else if c = 'à' then ['a', '̀'] else if c = 'â' then ['a', '̂']
  else if c = 'í' then ['i', '́'] else if c = 'ì' then ['i', '̀']
  else if c = 'î' then ['i', '̂'] else if c = 'ï' then ['i', '̈']
  else if c = 'ó' then ['o', '́'] else if c = 'ò' then ['o', '̀']
  else if c = 'ô' then ['o', '̂'] else if c = 'ú' then ['u', '́']
  else if c = 'ù' then ['u', '̀'] else if c = 'û' then ['u', '̂']
  else if c = 'ç' then ['c', '̧'] else if c = 'ñ' then ['n', '̃']
  else if c = 'ý' then ['y', '́'] else if c = 'ſ' then ['s']
  else [c]

/-- Modelled from unicodedata.combining: the combining diacritical marks
block, which is what the NFKD model above can produce. -/
def isCombiningChar (c : Char) : Bool :=
  decide (0x300 ≤ c.toNat) && decide (c.toNat ≤ 0x36F)

/-- The four chained str.replace calls of _basic_normalize, folded into one
character map (the searched characters never occur in the replacements). -/
def ligatureChar (c : Char) : List Char :=
  if c = 'ſ' then ['s'] else if c = 'ß' then ['s', 's']
  else if c = 'æ' then ['a', 'e'] else if c = 'œ' then ['o', 'e'] else [c]

/-- The punctuation-to-space substitution of _basic_normalize. -/
def punctChar (c : Char) : Char :=
  if c = '-' || c = '–' || c = '—' || c = '.' || c = ',' || c = ':' || c = ';' then ' ' else c

/-- One word run under the trailing-suffix substitution of _basic_normalize.
The regex there anchors both ends on a word boundary, so a match must span a
whole word run; the greedy first group then always leaves exactly one final
letter s to the second group, hence the substitution drops one trailing s
from an all-lower-case run whose stem keeps at least five letters. -/
def stripRun (run : List Char) : List Char :=
  if 6 ≤ run.length ∧ run.all isLowerAZ = true ∧ run.getLast? = some 's'
  then run.dropLast else run

/-- Applies stripRun to every maximal word run of a text. -/
def suffixStripGo (cur : List Char) : List Char → List Char
  | [] => stripRun cur.reverse
  | c :: t =>
    if isWordChar c then suffixStripGo (c :: cur) t
    else stripRun cur.reverse ++ c :: suffixStripGo [] t

/-- The final character-class substitution of _basic_normalize: everything
outside [a-z0-9 whitespace] becomes a space. -/
def charClassChar (c : Char) : Char :=
  if isLowerAZ c || isDigitChar c || isPySpaceChar c then c else ' '

/-- The shared normalization _basic_normalize of evaluation_unique.py:
NFKD decomposition, combining-mark removal, lower-casing, ligature mapping,
punctuation collapse, trailing-suffix stripping, character-class filter,
whitespace collapse. -/
def basicNormalize (s : String) : String :=
  let l := (s.data.map nfkdChar).join
  let l := l.filter (fun c => !isCombiningChar c)
  let l := l.map pyLowerChar
  let l := (l.map ligatureChar).join
  let l := l.map punctChar
  let l := suffixStripGo [] l
  let l := l.map charClassChar
  ofChars (wsCollapse l)

/-- The abbreviation table of evaluation_unique.py. -/
def ABBREVIATIONS : List (String × String) :=
  [("evangel", "evangelische"), ("hist", "historie"), ("math", "mathematik"),
   ("theol", "theologie"), ("jur", "juristische"), ("med", "medizin"),
   ("phil", "philosophie"), ("bot", "botschaft")]

/-- Python dict get with the token itself as default. -/
def abbrevLookup (k : String) : Option String :=
  (ABBREVIATIONS.find? (fun p => p.1 == k)).map Prod.snd

/-- expand_abbreviations of evaluation_unique.py: token-wise lookup after
removing the dots inside each token. -/
def expandAbbreviations (s : String) : String :=
  let toks := splitWs s
  let resolved := toks.map (fun t =>
    let clean := ofChars (t.data.filter (fun c => c ≠ '.'))
    match abbrevLookup clean with
    | some v => v
    | none => t)
  joinSep (" ") resolved

/-- normalize_for_fts of evaluation_unique.py. -/
def normalizeForFts (s : String) : String :=
  wsCollapseStr (expandAbbreviations (basicNormalize s))

/-- normalize_for_fuzz of evaluation_unique.py. -/
def normalizeForFuzz (s : String) : String := basicNormalize s

/-- normalize_db_vd_id of evaluation_unique.py: drop every character outside
ASCII alphanumerics, then lower-case. -/
def normalizeDbVdId (s : String) : String :=
  ofChars ((s.data.filter
    (fun c => isLowerAZ c || isUpperAZ c || isDigitChar c)).map pyLowerChar)

/-- Word-boundary test for the character preceding a candidate year match. -/
def yearPrevOk (prev : Option Char) : Bool :=
  match prev with
  | none => true
  | some p => !isWordChar p

/-- Word-boundary test for the characters following a candidate year match. -/
def yearNextOk (l : List Char) : Bool :=
  match l with
  | [] => true
  | c :: _ => !isWordChar c

/-- Left-to-right scan for the first year match of extract_query_year. -/
def findYearGo (prev : Option Char) : List Char → Option String
  | [] => none
  | c1 :: rest =>
    match rest with
    | c2 :: c3 :: c4 :: rest2 =>
      if c1 = '1' ∧ '4' ≤ c2 ∧ c2 ≤ '9' ∧ isDigitChar c3 = true ∧ isDigitChar c4 = true
          ∧ yearPrevOk prev = true ∧ yearNextOk rest2 = true
      then some (ofChars [c1, c2, c3, c4])
      else findYearGo (some c1) rest
    | _ => none

/-- extract_query_year of evaluation_unique.py: first standalone four-digit
token in the range 1400 to 1999. -/
def extractQueryYear (q : String) : Option String := findYearGo none q.data

/-- The stop-word set of evaluation_unique.py. -/
def STOPWORDS : List String :=
  ["der", "die", "das", "und", "oder", "von", "zu", "im", "in", "an", "auf",
   "herrn", "herr", "georgii", "georg", "joh", "jac", "et", "cum", "de",
   "opus", "tomus", "pars", "liber", "tractatus", "dissertatio", "vol", "cap",
   "tit", "pag", "etc", "bey", "buchhändler", "allhier", "haben", "sind", "ist",
   "eine", "einer", "ein", "neue", "mr", "mr-", "aus", "dem", "den", "des",
   "stuck", "stück", "item", "theil", "band", "bände", "über", "gegen", "nach"]

/-- Order-preserving deduplication.  The source materialises a Python set
whose iteration order is unspecified before the stable length sort; the
embedding pins first-occurrence order, and no claim depends on the order of
equal-length tokens. -/
def dedupFirstGo (seen : List String) : List String → List String
  | [] => []
  | x :: t => if x ∈ seen then dedupFirstGo seen t else x :: dedupFirstGo (x :: seen) t

/-- Stable insertion step: the new element settles in front of the first
element it strictly beats, behind every earlier tie. -/
def insertBy {α : Type} (lt : α → α → Bool) (c : α) : List α → List α
  | [] => [c]
  | d :: rest => if lt c d then d :: insertBy lt c rest else c :: d :: rest

/-- Stable descending sort, the behaviour of the Python stable sorts with
reverse True that the source uses (stable sorting has a unique output, so
insertion sort is extensionally the same function). -/
def sortByRev {α : Type} (lt : α → α → Bool) (l : List α) : List α :=
  l.foldr (insertBy lt) []

/-- Python sorted with key len and reverse True (stable descending). -/
def sortByLenDesc (l : List String) : List String :=
  sortByRev (fun a b => decide (a.length < b.length)) l

/-- Numeric pipeline parameters of evaluation_unique.py. -/
def MIN_FTS_TOKEN_LEN : Nat := 3

/-- Maximal token count of the strict expression. -/
def STRICT_MAX_TOKENS : Nat := 4

/-- Maximal token count of the broad expression. -/
def BROAD_MAX_TOKENS : Nat := 8

/-- Acceptance threshold shared by strategies 1 to 3. -/
def MIN_ACCEPT_SCORE : Int := 50

/-- Scoring parameters of evaluation_unique.py. -/
def YEAR_BONUS_EXACT : Int := 15

/-- Bonus for a year delta of one. -/
def YEAR_BONUS_CLOSE : Int := 5

/-- Bonus for an author match in strategy 1. -/
def AUTHOR_BONUS : Int := 15

/-- Bonus for a place match in strategy 1. -/
def PLACE_BONUS : Int := 10

/-- Preference bonus for identifiers of the most recent era in strategy 3. -/
def VD18_PREF_BONUS : Int := 5

/-- Per-entity bonus in strategy 3. -/
def ENTITY_BONUS : Int := 5

/-- build_fts_queries of evaluation_unique.py: filter the stop words, pure
digit tokens and short tokens, deduplicate, sort by length descending, and
join the longest tokens into the strict AND and broad OR expressions. -/
def buildFtsQueries (nfts : String) : String × String :=
  let toks := (splitWs nfts).filter
    (fun t => !(decide (t ∈ STOPWORDS) || pyIsDigitB t || decide (t.length < MIN_FTS_TOKEN_LEN)))
  let toks := sortByLenDesc (dedupFirstGo [] toks)
  (joinSep (" AND ") (toks.take STRICT_MAX_TOKENS),
   joinSep (" OR ") (toks.take BROAD_MAX_TOKENS))

/-- One row of the vd18 full-text table, as selected by every strategy:
clean_author, clean_title, year, place, vd_id.  The index builder
(create_el_index.py) always stores strings, never NULL. -/
structure Row where
  author : String
  title : String
  year : String
  place : String
  vd_id : String
deriving DecidableEq, Repr

/-- A scored candidate as the strategies build it: raw identifier, normalized
identifier, score, origin tag. -/
structure Cand where
  vd_id : String
  vd_id_norm : String
  score : Int
  source : String
deriving DecidableEq, Repr

/-- The rapidfuzz similarity primitives, passed in as an oracle: the library
is an external collaborator of the pipeline.  tokenSetSim stands for
fuzz.token_set_ratio, partialSim for fuzz.partial_ratio and wSim for
fuzz.WRatio; the real functions return values in [0,100]. -/
structure Fuzz where
  tokenSetSim : String → String → Int
  partialSim : String → String → Int
  wSim : String → String → Int

/-- The read-only SQLite full-text index, passed in as an oracle mapping each
query the source issues to the selected rows: q1 receives the MATCH
expression and the year parameter of the strategy 1 SELECT, q2 the MATCH
expression and the two textual year bounds of strategy 2, q3 and q4 the MATCH
expressions of strategies 3 and 4. -/
structure Db where
  q1 : String → Option String → List Row
  q2 : String → String → String → List Row
  q3 : String → List Row
  q4 : String → List Row

/-- Candidate constructor shared by all strategies: the stored score is
min(score, 100) and the normalized identifier is derived from the raw one. -/
def mkCand (vd : String) (score : Int) (src : String) : Cand :=
  { vd_id := vd, vd_id_norm := normalizeDbVdId vd, score := min score 100, source := src }

/-- Stable descending sort by score, as list.sort with key score and
reverse True performs it in the source. -/
def sortByScoreDesc (l : List Cand) : List Cand :=
  sortByRev (fun a b => decide (a.score < b.score)) l

/-- Row collection with exception propagation: processes the rows in order,
keeps the accepted candidates, and aborts at the first row whose processing
raises, as the Python loop would. -/
def collectRows (f : Row → Except Unit (Option Cand)) : List Row → Except Unit (List Cand)
  | [] => .ok []
  | r :: rs =>
    match f r with
    | .error e => .error e
    | .ok c? =>
      match collectRows f rs with
      | .error e => .error e
      | .ok rest =>
        match c? with
        | some c => .ok (c :: rest)
        | none => .ok rest

/-- The year block of the strategy 1 row loop: when both a query year and a
digit hit year exist, reject on a year delta above one in strict mode, add
the exact or close year bonus above similarity 60, and apply the broad-mode
distance penalty below similarity 92.  int(query_year) is the one unguarded
conversion, so the block is fallible. -/
def run1YearAdj (query_year : Option String) (rowYear : String) (strict : Bool)
    (base : Int) : Except Unit (Option Int) :=
  match query_year with
  | none => .ok (some base)
  | some qy =>
    if qy ≠ "" ∧ rowYear ≠ "" ∧ pyIsDigitB rowYear = true then
      match pyToInt qy with
      | none => .error ()
      | some qyi =>
        let dy : Nat := (qyi - (strToNat rowYear : Int)).natAbs
        if strict = true ∧ 1 < dy then .ok none
        else
          let s1 := if 60 < base then
              (if dy = 0 then base + YEAR_BONUS_EXACT
               else if dy = 1 then base + YEAR_BONUS_CLOSE else base)
            else base
          let s2 := if strict = false ∧ 1 < dy ∧ s1 < 92 then s1 - min (dy : Int) 15 else s1
          .ok (some s2)
    else .ok (some base)

/-- The author bonus of the strategy 1 row loop; the source compares the hit
author against the full normalized fuzzy query string. -/
def run1AuthorBonus (fz : Fuzz) (nqf : String) (row : Row) : Int :=
  if row.author ≠ "" ∧ 90 ≤ fz.partialSim (normalizeForFuzz row.author) nqf
  then AUTHOR_BONUS else 0

/-- The place bonus of the strategy 1 row loop. -/
def run1PlaceBonus (fz : Fuzz) (qplace : String) (row : Row) : Int :=
  if qplace ≠ "" ∧ row.place ≠ "" ∧
      85 < fz.partialSim (normalizeForFuzz qplace) (normalizeForFuzz row.place)
  then PLACE_BONUS else 0

/-- One row of the process loop inside execute_run_1: skip rows without an
identifier, score the author plus title label with token_set similarity,
apply the year block and the author and place bonuses, and accept at the
minimum score. -/
def run1Row (fz : Fuzz) (query_year : Option String) (nqf qplace : String)
    (strict : Bool) (row : Row) : Except Unit (Option Cand) :=
  if row.vd_id = "" then .ok none
  else
    let ndl := normalizeForFuzz (pyStrip (row.author ++ " " ++ row.title))
    let base := fz.tokenSetSim nqf ndl
    match run1YearAdj query_year row.year strict base with
    | .error e => .error e
    | .ok none => .ok none
    | .ok (some s0) =>
      let s := s0 + run1AuthorBonus fz nqf row + run1PlaceBonus fz qplace row
      if MIN_ACCEPT_SCORE ≤ s then .ok (some (mkCand row.vd_id s ("RUN_1"))) else .ok none

/-- Broad-pass trigger of execute_run_1: the strict candidates are empty or
their best score is below 95. -/
def run1NeedsBroad (cands : List Cand) : Prop :=
  match cands with
  | [] => True
  | c :: _ => c.score < 95

instance (cands : List Cand) : Decidable (run1NeedsBroad cands) := by
  unfold run1NeedsBroad
  cases cands <;> infer_instance

/-- execute_run_1 of evaluation_unique.py: strict pass when the strict
expression is nonempty, stable sort, broad pass when the best strict score is
below 95 and the broad expression is nonempty, merge of the new identifiers,
final stable sort. -/
def executeRun1 (fz : Fuzz) (db1 : String → Option String → List Row)
    (strict_q broad_q : String) (query_year : Option String)
    (nqf qplace qauthor : String) : Except Unit (List Cand) :=
  let strictRes :=
    if strict_q ≠ "" then collectRows (run1Row fz query_year nqf qplace true) (db1 strict_q query_year)
    else .ok []
  match strictRes with
  | .error e => .error e
  | .ok cs0 =>
    let cands := sortByScoreDesc cs0
    if run1NeedsBroad cands ∧ broad_q ≠ "" then
      match collectRows (run1Row fz query_year nqf qplace false) (db1 broad_q none) with
      | .error e => .error e
      | .ok cb =>
        let existing := cands.map Cand.vd_id_norm
        .ok (sortByScoreDesc (cands ++ cb.filter (fun c => !existing.contains c.vd_id_norm)))
    else .ok (sortByScoreDesc cands)

/-- One row of the execute_run_2 loop: only hits without a recorded author
count; the hit title must contain the query author at partial similarity
above 90; the score is the weighted similarity plus 30 minus the year
delta.  int(db_year) is unguarded there, so a hit with a year that is not a
plain integer raises. -/
def run2Row (fz : Fuzz) (nqf nqa : String) (y : Int) (row : Row) :
    Except Unit (Option Cand) :=
  if row.vd_id = "" then .ok none
  else if row.author ≠ "" then .ok none
  else
    let ndl := normalizeForFuzz (pyStrip row.title)
    if 90 < fz.partialSim nqa ndl then
      let score := fz.wSim nqf ndl + 30
      match pyToInt row.year with
      | none => .error ()
      | some dbY =>
        let dy : Nat := (y - dbY).natAbs
        let score := if 0 < dy then score - (dy : Int) else score
        if MIN_ACCEPT_SCORE ≤ score then .ok (some (mkCand row.vd_id score ("RUN_2")))
        else .ok none
    else .ok none

/-- execute_run_2 of evaluation_unique.py: requires the broad expression, a
year signal and a query author; queries a plus/minus three year window; is a
no-op when the normalized query author is shorter than four characters. -/
def executeRun2 (fz : Fuzz) (db2 : String → String → String → List Row)
    (broad_q : String) (query_year : Option String) (nqf qauthor : String) :
    Except Unit (List Cand) :=
  if broad_q = "" ∨ query_year = none ∨ query_year = some ("") ∨ qauthor = "" then .ok []
  else
    match pyToInt (query_year.getD ("")) with
    | none => .error ()
    | some y =>
      let rows := db2 broad_q (intStr (y - 3)) (intStr (y + 3))
      let nqa := normalizeForFuzz qauthor
      if nqa.length < 4 then .ok []
      else collectRows (run2Row fz nqf nqa y) rows

/-- One maximal word run qualifies as an entity of execute_run_3 when it is a
capitalized word of length at least four ([A-Z][a-z]{3,} spanning the whole
run, as the word boundaries of the regex require). -/
def entityRun (run : List Char) : Option String :=
  match run with
  | c :: rest =>
    if isUpperAZ c = true ∧ 3 ≤ rest.length ∧ rest.all isLowerAZ = true
    then some (ofChars (c :: rest)) else none
  | [] => none

/-- Scans the raw query for the entity matches of execute_run_3, in order. -/
def entityScanGo (cur : List Char) : List Char → List String
  | [] => (entityRun cur.reverse).toList
  | c :: t =>
    if isWordChar c then entityScanGo (c :: cur) t
    else (entityRun cur.reverse).toList ++ entityScanGo [] t

/-- re.findall of the capitalized-token pattern over the raw query. -/
def extractEntities (raw : String) : List String := entityScanGo [] raw.data

/-- One row of the execute_run_3 loop: token_set similarity plus five points
per entity found inside the normalized hit label plus the preference bonus
for identifiers of the most recent era. -/
def run3Row (fz : Fuzz) (nqf : String) (entities : List String) (row : Row) : Option Cand :=
  if row.vd_id = "" then none
  else
    let ndl := normalizeForFuzz (pyStrip (row.author ++ " " ++ row.title))
    let base := fz.tokenSetSim nqf ndl
    let hits := (entities.filter (fun e => strContains ndl (pyLowerStr e))).length
    let s := base + (hits : Int) * ENTITY_BONUS
    let s := if strStartsWith (pyUpperStr row.vd_id) ("VD18") then s + VD18_PREF_BONUS else s
    if MIN_ACCEPT_SCORE ≤ s then some (mkCand row.vd_id s ("RUN_3")) else none

/-- execute_run_3 of evaluation_unique.py: broad expression only, entity
extraction from the unnormalized query, stable descending sort. -/
def executeRun3 (fz : Fuzz) (db3 : String → List Row) (broad_q nqf raw_query : String) :
    List Cand :=
  if broad_q = "" then []
  else
    let rows := db3 broad_q
    let entities := (extractEntities raw_query).filter
      (fun w => !decide (pyLowerStr w ∈ STOPWORDS))
    sortByScoreDesc (rows.filterMap (run3Row fz nqf entities))

/-- The token filter of execute_run_4: normalized tokens of length at least
five outside the stop words. -/
def run4Tokens (nfts : String) : List String :=
  (splitWs nfts).filter (fun t => decide (5 ≤ t.length) && !decide (t ∈ STOPWORDS))

/-- The disjunctive expression of execute_run_4 over the three longest
surviving tokens. -/
def run4Query (nfts : String) : String :=
  joinSep (" OR ") ((sortByLenDesc (run4Tokens nfts)).take 3)

/-- One row of the execute_run_4 loop: plain token_set similarity, acceptance
threshold 65. -/
def run4Row (fz : Fuzz) (nqf : String) (row : Row) : Option Cand :=
  if row.vd_id = "" then none
  else
    let ndl := normalizeForFuzz (pyStrip (row.author ++ " " ++ row.title))
    let s := fz.tokenSetSim nqf ndl
    if 65 ≤ s then some (mkCand row.vd_id s ("RUN_4")) else none

/-- execute_run_4 of evaluation_unique.py: no-op when no token survives its
own filter, otherwise query the index with the rare-term expression and sort
the accepted candidates. -/
def executeRun4 (fz : Fuzz) (db4 : String → List Row) (nfts nqf : String) : List Cand :=
  if run4Tokens nfts = [] then []
  else sortByScoreDesc ((db4 (run4Query nfts)).filterMap (run4Row fz nqf))

/-- The era-exclusion switch of get_search_results: the query year signal is
present, numeric and above 1700. -/
def exclVd17 (query_year : Option String) : Bool :=
  match query_year with
  | none => false
  | some y => !decide (y = "") && pyIsDigitB y && decide (1700 < (strToNat y : Int))

/-- Tests whether fusion drops the candidate: era exclusion on and the
normalized identifier carries the earlier-era tag. -/
def excludedCand (excl : Bool) (c : Cand) : Bool :=
  excl && strStartsWith c.vd_id_norm ("vd17")

/-- Keyed insertion into the ordered association list that models the Python
dict of get_search_results: a new key is appended, an existing key keeps its
position and keeps its value unless the new score is strictly higher. -/
def fuseInsert (c : Cand) : List (String × Cand) → List (String × Cand)
  | [] => [(c.vd_id_norm, c)]
  | (k, old) :: rest =>
    if k = c.vd_id_norm then
      (k, if old.score < c.score then c else old) :: rest
    else (k, old) :: fuseInsert c rest

/-- One fusion step: drop excluded candidates, insert the rest. -/
def fuseFold (excl : Bool) (m : List (String × Cand)) (c : Cand) : List (String × Cand) :=
  if excludedCand excl c then m else fuseInsert c m

/-- The fused key map over a candidate stream. -/
def fuseMap (excl : Bool) (all : List Cand) : List (String × Cand) :=
  all.foldl (fuseFold excl) []

/-- The fused, deduplicated, stably sorted candidate list of
get_search_results, before the arbiter step. -/
def fusedList (excl : Bool) (all : List Cand) : List Cand :=
  sortByScoreDesc ((fuseMap excl all).map Prod.snd)

/-- execute_llm_judgment of evaluation_unique.py at the adapter boundary: the
external response is an oracle that either raises (caught, giving None) or
yields the parsed best identifier; the winner is returned only when it
differs from the sentinel and names one of the submitted candidates. -/
def executeLlmJudgment (llm : Except Unit String) (top : List Cand) : Option String :=
  if top = [] then none
  else
    match llm with
    | .error _ => none
    | .ok wid =>
      if wid ≠ "NONE" ∧ top.any (fun c => c.vd_id = wid) then some wid else none

/-- Locates the first candidate with the winning identifier and detaches it,
keeping the order of the others. -/
def promoteAux (w : String) : List Cand → Option (Cand × List Cand)
  | [] => none
  | c :: rest =>
    if c.vd_id = w then some (c, rest)
    else
      match promoteAux w rest with
      | none => none
      | some (x, rest2) => some (x, c :: rest2)

/-- The promotion loop of get_search_results: the first candidate carrying
the winning identifier gets score 100 and the arbiter tag appended to its
origin, and moves to the front; everything else keeps its order. -/
def promoteWinner (w : String) (l : List Cand) : List Cand :=
  match promoteAux w l with
  | none => l
  | some (x, rest) =>
    { vd_id := x.vd_id, vd_id_norm := x.vd_id_norm, score := 100,
      source := x.source ++ "+LLM" } :: rest

/-- The arbiter stage of get_search_results: consult the oracle on the top 25
fused candidates when any exist, and promote a truthy winner. -/
def applyArbiter (llm : Except Unit String) (fused : List Cand) : List Cand × String :=
  match (if fused = [] then none else executeLlmJudgment llm (fused.take 25)) with
  | some w => if w ≠ "" then (promoteWinner w fused, w) else (fused, "-")
  | none => (fused, "-")

/-- The tuple get_search_results returns: final list, the four per-strategy
lists and the arbiter winner display value. -/
structure SearchOutput where
  final : List Cand
  r1 : List Cand
  r2 : List Cand
  r3 : List Cand
  r5 : List Cand
  llm_winner : String
deriving DecidableEq, Repr

/-- get_search_results of evaluation_unique.py: extract the year signal,
normalize, build the expressions, execute the four strategies, fuse with the
era exclusion, and apply the arbiter stage. -/
def getSearchResults (fz : Fuzz) (db : Db) (llm : Except Unit String)
    (query qplace qauthor : String) : Except Unit SearchOutput :=
  let query_year := extractQueryYear query
  let nfts := normalizeForFts query
  let nfuzz := normalizeForFuzz query
  let qs := buildFtsQueries nfts
  match executeRun1 fz db.q1 qs.1 qs.2 query_year nfuzz qplace qauthor with
  | .error e => .error e
  | .ok r1 =>
    match executeRun2 fz db.q2 qs.2 query_year nfuzz qauthor with
    | .error e => .error e
    | .ok r2 =>
      let r3 := executeRun3 fz db.q3 qs.2 nfuzz query
      let r5 := executeRun4 fz db.q4 nfts nfuzz
      let fused := fusedList (exclVd17 query_year) (r1 ++ r2 ++ r3 ++ r5)
      let fw := applyArbiter llm fused
      .ok { final := fw.1, r1 := r1, r2 := r2, r3 := r3, r5 := r5, llm_winner := fw.2 }

/-- Shape every stored candidate has: accepted score between the shared
threshold and the clamp, and a nonempty raw identifier. -/
def GoodCand (c : Cand) : Prop := 50 ≤ c.score ∧ c.score ≤ 100 ∧ c.vd_id ≠ ""

/-- The invariant of a returned result list: scores within [0,100], unique
normalized identifiers, non-increasing score order. -/
def ResultInv (l : List Cand) : Prop :=
  (∀ c ∈ l, 0 ≤ c.score ∧ c.score ≤ 100) ∧
  (l.map Cand.vd_id_norm).Nodup ∧
  l.Pairwise (fun a b => b.score ≤ a.score)

theorem mkCand_good {vd : String} {s : Int} {src : String}
    (hs : MIN_ACCEPT_SCORE ≤ s) (hv : vd ≠ "") : GoodCand (mkCand vd s src) := by
  unfold MIN_ACCEPT_SCORE at hs
  refine ⟨?_, ?_, hv⟩ <;> simp [mkCand] <;> omega

theorem insertBy_perm {α : Type} (lt : α → α → Bool) (c : α) :
    ∀ l : List α, (insertBy lt c l).Perm (c :: l) := by
  intro l
  induction l with
  | nil => exact List.Perm.refl _
  | cons d rest ih =>
    unfold insertBy
    split
    · exact (ih.cons d).trans (List.Perm.swap c d rest)
    · exact List.Perm.refl _

theorem sortByRev_perm {α : Type} (lt : α → α → Bool) :
    ∀ l : List α, (sortByRev lt l).Perm l := by
  intro l
  induction l with
  | nil => exact List.Perm.nil
  | cons c rest ih => exact (insertBy_perm lt c _).trans (ih.cons c)

theorem sortByScoreDesc_perm (l : List Cand) : (sortByScoreDesc l).Perm l :=
  sortByRev_perm _ l

theorem mem_sortByScoreDesc {c : Cand} {l : List Cand} :
    c ∈ sortByScoreDesc l ↔ c ∈ l := (sortByScoreDesc_perm l).mem_iff

theorem insertDesc_sorted {c : Cand} {l : List Cand}
    (h : l.Pairwise (fun a b => b.score ≤ a.score)) :
    (insertBy (fun a b => decide (a.score < b.score)) c l).Pairwise
      (fun a b => b.score ≤ a.score) := by
  induction l with
  | nil => simp [insertBy]
  | cons d rest ih =>
    rw [List.pairwise_cons] at h
    unfold insertBy
    split
    · rename_i hlt
      rw [decide_eq_true_eq] at hlt
      rw [List.pairwise_cons]
      constructor
      · intro y hy
        rcases (insertBy_perm _ c rest).mem_iff.mp hy with hy2
        rcases List.mem_cons.mp hy2 with hy2 | hy2
        · subst hy2; omega
        · exact h.1 y hy2
      · exact ih h.2
    · rename_i hlt
      rw [decide_eq_true_eq] at hlt
      rw [List.pairwise_cons]
      constructor
      · intro y hy
        rcases List.mem_cons.mp hy with hy | hy
        · subst hy; omega
        · have := h.1 y hy
          omega
      · exact List.pairwise_cons.mpr h

theorem sortByScoreDesc_sorted (l : List Cand) :
    (sortByScoreDesc l).Pairwise (fun a b => b.score ≤ a.score) := by
  induction l with
  | nil => simp [sortByScoreDesc, sortByRev]
  | cons c rest ih => exact insertDesc_sorted ih

theorem collectRows_ok_mem {f : Row → Except Unit (Option Cand)} :
    ∀ {rows : List Row} {out : List Cand}, collectRows f rows = .ok out →
      ∀ c ∈ out, ∃ r, r ∈ rows ∧ f r = .ok (some c) := by
  intro rows
  induction rows with
  | nil =>
    intro out h c hc
    simp only [collectRows, Except.ok.injEq] at h
    subst h; cases hc
  | cons r rs ih =>
    intro out h c hc
    simp only [collectRows] at h
    cases hf : f r with
    | error e => rw [hf] at h; cases h
    | ok c? =>
      rw [hf] at h
      cases hrec : collectRows f rs with
      | error e => rw [hrec] at h; cases h
      | ok rest =>
        rw [hrec] at h
        cases c? with
        | some c0 =>
          simp only [Except.ok.injEq] at h
          subst h
          rcases List.mem_cons.mp hc with hceq | hmem
          · exact ⟨r, by simp, by rw [← hceq] at hf; exact hf⟩
          · obtain ⟨r2, hr2, hfr2⟩ := ih hrec c hmem
            exact ⟨r2, by simp [hr2], hfr2⟩
        | none =>
          simp only [Except.ok.injEq] at h
          subst h
          obtain ⟨r2, hr2, hfr2⟩ := ih hrec c hc
          exact ⟨r2, by simp [hr2], hfr2⟩

theorem goodOfCollect {f : Row → Except Unit (Option Cand)} {rows : List Row}
    {out : List Cand} (hf : ∀ r c, f r = .ok (some c) → GoodCand c)
    (h : collectRows f rows = .ok out) : ∀ c ∈ out, GoodCand c := by
  intro c hc
  obtain ⟨r, _, hr⟩ := collectRows_ok_mem h c hc
  exact hf r c hr

theorem run1Row_good {fz : Fuzz} {qy : Option String} {nqf qp : String} {b : Bool}
    {row : Row} {c : Cand} (h : run1Row fz qy nqf qp b row = .ok (some c)) :
    GoodCand c := by
  simp only [run1Row] at h
  split at h
  · exact Option.noConfusion (Except.ok.inj h)
  · rename_i hvd
    split at h
    · exact Except.noConfusion h
    · exact Option.noConfusion (Except.ok.inj h)
    · split at h
      · rw [Except.ok.injEq, Option.some.injEq] at h
        subst h
        exact mkCand_good (by assumption) hvd
      · exact Option.noConfusion (Except.ok.inj h)

theorem run2Row_good {fz : Fuzz} {nqf nqa : String} {y : Int} {row : Row} {c : Cand}
    (h : run2Row fz nqf nqa y row = .ok (some c)) : GoodCand c := by
  simp only [run2Row] at h
  split at h
  · exact Option.noConfusion (Except.ok.inj h)
  · rename_i hvd
    split at h
    · exact Option.noConfusion (Except.ok.inj h)
    · split at h
      · split at h
        · exact Except.noConfusion h
        · split at h
          all_goals try split at h
          all_goals
            first
            | exact Option.noConfusion (Except.ok.inj h)
            | (rw [Except.ok.injEq, Option.some.injEq] at h
               subst h
               exact mkCand_good (by assumption) hvd)
      · exact Option.noConfusion (Except.ok.inj h)

theorem run3Row_good {fz : Fuzz} {nqf : String} {entities : List String} {row : Row}
    {c : Cand} (h : run3Row fz nqf entities row = some c) : GoodCand c := by
  simp only [run3Row] at h
  split at h
  · exact Option.noConfusion h
  · rename_i hvd
    split at h
    all_goals try split at h
    all_goals
      first
      | exact Option.noConfusion h
      | (rw [Option.some.injEq] at h
         subst h
         exact mkCand_good (by assumption) hvd)

theorem run4Row_good {fz : Fuzz} {nqf : String} {row : Row} {c : Cand}
    (h : run4Row fz nqf row = some c) : GoodCand c := by
  simp only [run4Row] at h
  split at h
  · exact Option.noConfusion h
  · rename_i hvd
    split at h
    · rw [Option.some.injEq] at h
      subst h
      refine mkCand_good ?_ hvd
      unfold MIN_ACCEPT_SCORE
      omega
    · exact Option.noConfusion h

theorem executeRun1_good {fz : Fuzz} {db1 : String → Option String → List Row}
    {strict_q broad_q : String} {qy : Option String} {nqf qp qa : String}
    {out : List Cand} (h : executeRun1 fz db1 strict_q broad_q qy nqf qp qa = .ok out) :
    ∀ c ∈ out, GoodCand c := by
  unfold executeRun1 at h
  cases hs : (if strict_q ≠ "" then
      collectRows (run1Row fz qy nqf qp true) (db1 strict_q qy) else .ok []) with
  | error e => rw [hs] at h; cases h
  | ok cs0 =>
    rw [hs] at h
    have hcs0 : ∀ c ∈ cs0, GoodCand c := by
      by_cases hq : strict_q ≠ ""
      · rw [if_pos hq] at hs
        exact goodOfCollect (fun r c hr => run1Row_good hr) hs
      · rw [if_neg hq] at hs
        simp only [Except.ok.injEq] at hs
        subst hs; intro c hc; cases hc
    simp only at h
    split at h
    · cases hb : collectRows (run1Row fz qy nqf qp false) (db1 broad_q none) with
      | error e => rw [hb] at h; cases h
      | ok cb =>
        rw [hb] at h
        simp only [Except.ok.injEq] at h
        subst h
        intro c hc
        rw [mem_sortByScoreDesc] at hc
        rcases List.mem_append.mp hc with hc | hc
        · exact hcs0 c (mem_sortByScoreDesc.mp hc)
        · exact goodOfCollect (fun r c hr => run1Row_good hr) hb c (List.mem_filter.mp hc).1
    · simp only [Except.ok.injEq] at h
      subst h
      intro c hc
      exact hcs0 c (mem_sortByScoreDesc.mp (mem_sortByScoreDesc.mp hc))

theorem executeRun2_good {fz : Fuzz} {db2 : String → String → String → List Row}
    {broad_q : String} {qy : Option String} {nqf qa : String} {out : List Cand}
    (h : executeRun2 fz db2 broad_q qy nqf qa = .ok out) : ∀ c ∈ out, GoodCand c := by
  unfold executeRun2 at h
  split at h
  · simp only [Except.ok.injEq] at h
    subst h; intro c hc; cases hc
  · cases hp : pyToInt (qy.getD ("")) with
    | none => rw [hp] at h; cases h
    | some y =>
      rw [hp] at h
      simp only at h
      split at h
      · simp only [Except.ok.injEq] at h
        subst h; intro c hc; cases hc
      · exact goodOfCollect (fun r c hr => run2Row_good hr) h

theorem executeRun3_good {fz : Fuzz} {db3 : String → List Row}
    {broad_q nqf raw : String} : ∀ c ∈ executeRun3 fz db3 broad_q nqf raw, GoodCand c := by
  intro c hc
  unfold executeRun3 at hc
  split at hc
  · cases hc
  · rw [mem_sortByScoreDesc] at hc
    obtain ⟨r, _, hr⟩ := List.mem_filterMap.mp hc
    exact run3Row_good hr

theorem executeRun4_good {fz : Fuzz} {db4 : String → List Row} {nfts nqf : String} :
    ∀ c ∈ executeRun4 fz db4 nfts nqf, GoodCand c := by
  intro c hc
  unfold executeRun4 at hc
  split at hc
  · cases hc
  · rw [mem_sortByScoreDesc] at hc
    obtain ⟨r, _, hr⟩ := List.mem_filterMap.mp hc
    exact run4Row_good hr

theorem fuseInsert_snd_mem {c : Cand} {m : List (String × Cand)} :
    ∀ p ∈ fuseInsert c m, p.2 = c ∨ ∃ q ∈ m, p.2 = q.2 := by
  induction m with
  | nil =>
    intro p hp
    simp only [fuseInsert, List.mem_singleton] at hp
    subst hp
    exact Or.inl rfl
  | cons q rest ih =>
    intro p hp
    obtain ⟨k, old⟩ := q
    simp only [fuseInsert] at hp
    split at hp
    · rcases List.mem_cons.mp hp with hp | hp
      · subst hp
        by_cases ho : old.score < c.score
        · exact Or.inl (by simp [ho])
        · exact Or.inr ⟨(k, old), by simp, by simp [ho]⟩
      · exact Or.inr ⟨p, by simp [hp]⟩
    · rcases List.mem_cons.mp hp with hp | hp
      · subst hp; exact Or.inr ⟨(k, old), by simp⟩
      · rcases ih p hp with hl | ⟨q2, hq2, he⟩
        · exact Or.inl hl
        · exact Or.inr ⟨q2, by simp [hq2], he⟩

theorem fuseInsert_keys (c : Cand) (m : List (String × Cand)) :
    (fuseInsert c m).map Prod.fst =
      if c.vd_id_norm ∈ m.map Prod.fst then m.map Prod.fst
      else m.map Prod.fst ++ [c.vd_id_norm] := by
  induction m with
  | nil => simp [fuseInsert]
  | cons q rest ih =>
    obtain ⟨k, old⟩ := q
    simp only [fuseInsert]
    split
    · rename_i hk
      subst hk
      simp
    · rename_i hk
      have hne : c.vd_id_norm ≠ k := fun he => hk he.symm
      by_cases hmem : c.vd_id_norm ∈ rest.map Prod.fst
      · simp [ih, hmem, hne]
      · simp [ih, hmem, hne]

theorem fuseInsert_keys_nodup {c : Cand} {m : List (String × Cand)}
    (h : (m.map Prod.fst).Nodup) : ((fuseInsert c m).map Prod.fst).Nodup := by
  rw [fuseInsert_keys]
  split
  · exact h
  · rename_i hmem
    simp only [List.nodup_append, List.nodup_singleton]
    refine ⟨h, by simp, ?_⟩
    intro a ha hb
    simp only [List.mem_singleton] at hb
    subst hb
    exact hmem ha

theorem fuseInsert_consistent {c : Cand} {m : List (String × Cand)}
    (hm : ∀ p ∈ m, p.1 = p.2.vd_id_norm) :
    ∀ p ∈ fuseInsert c m, p.1 = p.2.vd_id_norm := by
  induction m with
  | nil =>
    intro p hp
    simp only [fuseInsert, List.mem_singleton] at hp
    subst hp; rfl
  | cons q rest ih =>
    intro p hp
    obtain ⟨k, old⟩ := q
    simp only [fuseInsert] at hp
    split at hp
    · rename_i hk
      rcases List.mem_cons.mp hp with hp | hp
      · subst hp
        by_cases ho : old.score < c.score
        · simp only [if_pos ho]; exact hk
        · simp only [if_neg ho]; exact hm (k, old) (by simp)
      · exact hm p (by simp [hp])
    · rcases List.mem_cons.mp hp with hp | hp
      · subst hp; exact hm (k, old) (by simp)
      · exact ih (fun p2 hp2 => hm p2 (by simp [hp2])) p hp

theorem fuseFoldl_snd_mem {excl : Bool} :
    ∀ (l : List Cand) (m : List (String × Cand)) (p : String × Cand),
      p ∈ l.foldl (fuseFold excl) m →
      (∃ q ∈ m, p.2 = q.2) ∨ (p.2 ∈ l ∧ excludedCand excl p.2 = false) := by
  intro l
  induction l with
  | nil => intro m p hp; exact Or.inl ⟨p, hp, rfl⟩
  | cons c rest ih =>
    intro m p hp
    simp only [List.foldl_cons] at hp
    rcases ih (fuseFold excl m c) p hp with ⟨q, hq, he⟩ | ⟨hmem, hex⟩
    · unfold fuseFold at hq
      split at hq
      · exact Or.inl ⟨q, hq, he⟩
      · rename_i hnotex
        rcases fuseInsert_snd_mem q hq with hl | ⟨q2, hq2, he2⟩
        · refine Or.inr ⟨?_, ?_⟩
          · rw [he, hl]; simp
          · rw [he, hl]; simpa using hnotex
        · exact Or.inl ⟨q2, hq2, he.trans he2⟩
    · exact Or.inr ⟨by simp [hmem], hex⟩

theorem fuseFoldl_keys_nodup {excl : Bool} :
    ∀ (l : List Cand) (m : List (String × Cand)),
      (m.map Prod.fst).Nodup → ((l.foldl (fuseFold excl) m).map Prod.fst).Nodup := by
  intro l
  induction l with
  | nil => intro m hm; exact hm
  | cons c rest ih =>
    intro m hm
    simp only [List.foldl_cons]
    refine ih (fuseFold excl m c) ?_
    unfold fuseFold
    split
    · exact hm
    · exact fuseInsert_keys_nodup hm

theorem fuseFoldl_consistent {excl : Bool} :
    ∀ (l : List Cand) (m : List (String × Cand)),
      (∀ p ∈ m, p.1 = p.2.vd_id_norm) →
      ∀ p ∈ l.foldl (fuseFold excl) m, p.1 = p.2.vd_id_norm := by
  intro l
  induction l with
  | nil => intro m hm; exact hm
  | cons c rest ih =>
    intro m hm
    simp only [List.foldl_cons]
    refine ih (fuseFold excl m c) ?_
    unfold fuseFold
    split
    · exact hm
    · exact fuseInsert_consistent hm

theorem fuseMap_snd_mem {excl : Bool} {all : List Cand} {p : String × Cand}
    (hp : p ∈ fuseMap excl all) : p.2 ∈ all ∧ excludedCand excl p.2 = false := by
  rcases fuseFoldl_snd_mem all [] p hp with ⟨q, hq, _⟩ | h
  · cases hq
  · exact h

theorem fuseMap_keys_nodup {excl : Bool} {all : List Cand} :
    ((fuseMap excl all).map Prod.fst).Nodup :=
  fuseFoldl_keys_nodup all [] (by simp)

theorem fuseMap_consistent {excl : Bool} {all : List Cand} :
    ∀ p ∈ fuseMap excl all, p.1 = p.2.vd_id_norm :=
  fuseFoldl_consistent all [] (by intro p hp; cases hp)

theorem fusedList_mem {excl : Bool} {all : List Cand} {c : Cand}
    (hc : c ∈ fusedList excl all) : c ∈ all ∧ excludedCand excl c = false := by
  unfold fusedList at hc
  rw [mem_sortByScoreDesc] at hc
  obtain ⟨p, hp, he⟩ := List.mem_map.mp hc
  exact he ▸ fuseMap_snd_mem hp

theorem fusedList_inv {excl : Bool} {all : List Cand}
    (hall : ∀ c ∈ all, GoodCand c) : ResultInv (fusedList excl all) := by
  refine ⟨?_, ?_, sortByScoreDesc_sorted _⟩
  · intro c hc
    have := hall c (fusedList_mem hc).1
    unfold GoodCand at this
    omega
  · have hperm : ((fusedList excl all).map Cand.vd_id_norm).Perm
        (((fuseMap excl all).map Prod.snd).map Cand.vd_id_norm) :=
      (sortByScoreDesc_perm _).map Cand.vd_id_norm
    refine hperm.symm.nodup ?_
    have : ((fuseMap excl all).map Prod.snd).map Cand.vd_id_norm =
        (fuseMap excl all).map Prod.fst := by
      rw [List.map_map]
      exact List.map_congr_left (fun p hp => (fuseMap_consistent p hp).symm)
    rw [this]
    exact fuseMap_keys_nodup

theorem promoteAux_none {w : String} :
    ∀ {l : List Cand}, promoteAux w l = none ↔ ∀ c ∈ l, c.vd_id ≠ w := by
  intro l
  induction l with
  | nil => exact iff_of_true rfl (by intro c hc; cases hc)
  | cons c rest ih =>
    simp only [promoteAux]
    split
    · rename_i hc
      refine iff_of_false (fun h => Option.noConfusion h) ?_
      intro hall
      exact hall c (by simp) hc
    · rename_i hc
      cases hrec : promoteAux w rest with
      | none =>
        refine iff_of_true rfl ?_
        intro d hd
        rcases List.mem_cons.mp hd with hd | hd
        · subst hd; exact hc
        · exact (ih.mp hrec) d hd
      | some pr =>
        obtain ⟨x, rest2⟩ := pr
        refine iff_of_false (fun h => Option.noConfusion h) ?_
        intro hall
        have hres : ∀ d ∈ rest, d.vd_id ≠ w := fun d hd => hall d (by simp [hd])
        rw [ih.mpr hres] at hrec
        cases hrec

theorem promoteAux_some {w : String} :
    ∀ {l : List Cand} {x : Cand} {rest : List Cand},
      promoteAux w l = some (x, rest) →
      x.vd_id = w ∧ ∃ pre post, l = pre ++ x :: post ∧ rest = pre ++ post ∧
        ∀ y ∈ pre, y.vd_id ≠ w := by
  intro l
  induction l with
  | nil => intro x rest h; cases h
  | cons c tail ih =>
    intro x rest h
    simp only [promoteAux] at h
    split at h
    · rename_i hc
      simp only [Option.some.injEq, Prod.mk.injEq] at h
      obtain ⟨hx, hr⟩ := h
      subst hx; subst hr
      exact ⟨hc, [], tail, by simp, by simp, by simp⟩
    · rename_i hc
      cases hrec : promoteAux w tail with
      | none => rw [hrec] at h; cases h
      | some pr =>
        obtain ⟨x2, rest2⟩ := pr
        rw [hrec] at h
        simp only [Option.some.injEq, Prod.mk.injEq] at h
        obtain ⟨hx, hr⟩ := h
        subst hx; subst hr
        obtain ⟨hw, pre, post, hl, hrest, hpre⟩ := ih hrec
        refine ⟨hw, c :: pre, post, by simp [hl], by simp [hrest], ?_⟩
        intro y hy
        rcases List.mem_cons.mp hy with hy | hy
        · subst hy; exact hc
        · exact hpre y hy

/-- Lookup in the ordered association list of the fusion fold. -/
def lookupA (k : String) : List (String × Cand) → Option Cand
  | [] => none
  | (k2, c) :: rest => if k2 = k then some c else lookupA k rest

/-- The candidates of a stream that fusion considers for one key: same
normalized identifier and not dropped by the era exclusion. -/
def filterKey (excl : Bool) (k : String) (l : List Cand) : List Cand :=
  l.filter (fun c => !excludedCand excl c && decide (c.vd_id_norm = k))

/-- The first candidate attaining the maximal score of a list; matches the
keep-on-strictly-greater update policy of fusion. -/
def firstMax : List Cand → Option Cand
  | [] => none
  | c :: rest =>
    match firstMax rest with
    | none => some c
    | some d => some (if c.score < d.score then d else c)

/-- Maximal score of a candidate list. -/
def scoreMax : List Cand → Option Int
  | [] => none
  | c :: rest =>
    match scoreMax rest with
    | none => some c.score
    | some m => some (max c.score m)

/-- Merge of an earlier fusion survivor with a later stream survivor. -/
def mergeO : Option Cand → Option Cand → Option Cand
  | o, none => o
  | none, some n => some n
  | some o, some n => some (if o.score < n.score then n else o)

theorem lookupA_fuseInsert (k : String) (c : Cand) :
    ∀ (m : List (String × Cand)),
      lookupA k (fuseInsert c m) =
        if c.vd_id_norm = k then
          (match lookupA k m with
           | none => some c
           | some o => some (if o.score < c.score then c else o))
        else lookupA k m := by
  intro m
  induction m with
  | nil =>
    by_cases hk : c.vd_id_norm = k <;> simp [fuseInsert, lookupA, hk]
  | cons q rest ih =>
    obtain ⟨k2, old⟩ := q
    by_cases h2 : k2 = c.vd_id_norm
    · subst h2
      by_cases hk : c.vd_id_norm = k
      · subst hk
        simp [fuseInsert, lookupA]
      · simp [fuseInsert, lookupA, hk]
    · by_cases hk : k2 = k
      · subst hk
        have hck : ¬ c.vd_id_norm = k2 := fun he => h2 he.symm
        simp [fuseInsert, lookupA, h2, hck]
      · simp [fuseInsert, lookupA, h2, hk, ih]

theorem lookupA_fuseFold (excl : Bool) (k : String) (c : Cand) (m : List (String × Cand)) :
    lookupA k (fuseFold excl m c) =
      if excludedCand excl c = false ∧ c.vd_id_norm = k then
        (match lookupA k m with
         | none => some c
         | some o => some (if o.score < c.score then c else o))
      else lookupA k m := by
  unfold fuseFold
  by_cases he : excludedCand excl c
  · simp [he]
  · rw [if_neg he, lookupA_fuseInsert]
    by_cases hk : c.vd_id_norm = k
    · simp [hk, he]
    · simp [hk, he]

theorem fuse_lookup_aux (excl : Bool) (k : String) :
    ∀ (l : List Cand) (m : List (String × Cand)),
      lookupA k (l.foldl (fuseFold excl) m) =
        mergeO (lookupA k m) (firstMax (filterKey excl k l)) := by
  intro l
  induction l with
  | nil =>
    intro m
    simp only [List.foldl_nil, filterKey, List.filter_nil, firstMax]
    cases lookupA k m <;> rfl
  | cons c l2 ih =>
    intro m
    simp only [List.foldl_cons]
    rw [ih (fuseFold excl m c)]
    rw [lookupA_fuseFold]
    unfold filterKey
    rw [List.filter_cons]
    by_cases hp : (!excludedCand excl c && decide (c.vd_id_norm = k)) = true
    · have hp2 : excludedCand excl c = false ∧ c.vd_id_norm = k := by simpa using hp
      rw [if_pos hp, if_pos hp2]
      simp only [firstMax]
      generalize lookupA k m = o2
      generalize firstMax (List.filter
        (fun c => !excludedCand excl c && decide (c.vd_id_norm = k)) l2) = n2
      rcases o2 with _ | o <;> rcases n2 with _ | d <;>
        simp only [mergeO] <;> split_ifs <;> first | rfl | omega
    · have hcond : ¬(excludedCand excl c = false ∧ c.vd_id_norm = k) := by
        intro ⟨h1, h2⟩
        exact hp (by simp [h1, h2])
      rw [if_neg hp, if_neg hcond]

theorem fuse_lookup (excl : Bool) (k : String) (l : List Cand) :
    lookupA k (fuseMap excl l) = firstMax (filterKey excl k l) := by
  unfold fuseMap
  rw [fuse_lookup_aux]
  cases firstMax (filterKey excl k l) <;> rfl

theorem firstMax_none : ∀ {F : List Cand}, firstMax F = none ↔ F = [] := by
  intro F
  cases F with
  | nil => simp [firstMax]
  | cons c rest =>
    simp only [firstMax]
    cases firstMax rest <;> simp

theorem firstMax_spec : ∀ {F : List Cand} {c : Cand}, firstMax F = some c →
    c ∈ F ∧ (∀ d ∈ F, d.score ≤ c.score) ∧
      ∃ pre post, F = pre ++ c :: post ∧ ∀ d ∈ pre, d.score < c.score := by
  intro F
  induction F with
  | nil => intro c h; cases h
  | cons a F2 ih =>
    intro c h
    simp only [firstMax] at h
    cases hr : firstMax F2 with
    | none =>
      rw [hr] at h
      rw [Option.some.injEq] at h
      subst h
      have hF2 : F2 = [] := firstMax_none.mp hr
      subst hF2
      exact ⟨by simp, by simp, [], [], by simp, by simp⟩
    | some d =>
      rw [hr] at h
      rw [Option.some.injEq] at h
      obtain ⟨hd, hbound, pre, post, hdec, hpre⟩ := ih hr
      by_cases hlt : a.score < d.score
      · rw [if_pos hlt] at h
        subst h
        refine ⟨by simp [hd], ?_, a :: pre, post, by simp [hdec], ?_⟩
        · intro e he
          rcases List.mem_cons.mp he with he | he
          · subst he; omega
          · exact hbound e he
        · intro e he
          rcases List.mem_cons.mp he with he | he
          · subst he; exact hlt
          · exact hpre e he
      · rw [if_neg hlt] at h
        subst h
        refine ⟨by simp, ?_, [], F2, by simp, by simp⟩
        intro e he
        rcases List.mem_cons.mp he with he | he
        · subst he; omega
        · have := hbound e he
          omega

theorem firstMax_score : ∀ (F : List Cand),
    Option.map Cand.score (firstMax F) = scoreMax F := by
  intro F
  induction F with
  | nil => rfl
  | cons a F2 ih =>
    simp only [firstMax, scoreMax]
    cases hr : firstMax F2 with
    | none =>
      rw [hr] at ih
      cases hs : scoreMax F2 with
      | none => simp
      | some m => rw [hs] at ih; cases ih
    | some d =>
      rw [hr] at ih
      cases hs : scoreMax F2 with
      | none => rw [hs] at ih; cases ih
      | some m =>
        rw [hs] at ih
        simp only [Option.map_some'] at ih ⊢
        rw [Option.some.injEq] at ih
        rw [Option.some.injEq, apply_ite Cand.score]
        split_ifs <;> omega

theorem scoreMax_perm : ∀ {F G : List Cand}, F.Perm G → scoreMax F = scoreMax G := by
  intro F G h
  induction h with
  | nil => rfl
  | cons a _ ih => simp only [scoreMax, ih]
  | swap a b l =>
    simp only [scoreMax]
    cases hm : scoreMax l with
    | none => rw [Option.some.injEq]; omega
    | some m => rw [Option.some.injEq]; omega
  | trans _ _ ih1 ih2 => exact ih1.trans ih2

theorem applyArbiter_decomp (llm : Except Unit String) (fused : List Cand) :
    (applyArbiter llm fused).1 = fused ∨
      ∃ x pre post, fused = pre ++ x :: post ∧ (∀ y ∈ pre, y.vd_id ≠ x.vd_id) ∧
        (applyArbiter llm fused).1 =
          { vd_id := x.vd_id, vd_id_norm := x.vd_id_norm, score := 100,
            source := x.source ++ "+LLM" } :: (pre ++ post) := by
  unfold applyArbiter
  cases hj : (if fused = [] then none else executeLlmJudgment llm (fused.take 25)) with
  | none => exact Or.inl rfl
  | some w =>
    dsimp only
    by_cases hw : w ≠ ""
    · rw [if_pos hw]
      unfold promoteWinner
      cases hpa : promoteAux w fused with
      | none => exact Or.inl rfl
      | some pr =>
        obtain ⟨x, rest⟩ := pr
        obtain ⟨hxw, pre, post, hdec, hrest, hpre⟩ := promoteAux_some hpa
        refine Or.inr ⟨x, pre, post, hdec, ?_, ?_⟩
        · intro y hy
          rw [hxw]
          exact hpre y hy
        · simp only
          rw [hrest]
    · rw [if_neg hw]
      exact Or.inl rfl

theorem promote_resultInv {fused : List Cand} (hinv : ResultInv fused)
    (hgood : ∀ c ∈ fused, GoodCand c) (llm : Except Unit String) :
    ResultInv (applyArbiter llm fused).1 := by
  rcases applyArbiter_decomp llm fused with h | ⟨x, pre, post, hf, _, h⟩
  · rw [h]; exact hinv
  · rw [h]
    obtain ⟨hscore, hnodup, hsorted⟩ := hinv
    have hmemf : ∀ y, y ∈ pre ++ post → y ∈ fused := by
      intro y hy
      rw [hf]
      rcases List.mem_append.mp hy with hy | hy
      · exact List.mem_append.mpr (Or.inl hy)
      · exact List.mem_append.mpr (Or.inr (by simp [hy]))
    refine ⟨?_, ?_, ?_⟩
    · intro c hc
      rcases List.mem_cons.mp hc with hc | hc
      · subst hc; exact ⟨by norm_num, by norm_num⟩
      · exact hscore c (hmemf c hc)
    · have heq : fused.map Cand.vd_id_norm =
          pre.map Cand.vd_id_norm ++ x.vd_id_norm :: post.map Cand.vd_id_norm := by
        rw [hf]; simp
      rw [heq] at hnodup
      have hperm : (pre.map Cand.vd_id_norm ++
            x.vd_id_norm :: post.map Cand.vd_id_norm).Perm
          (x.vd_id_norm :: (pre.map Cand.vd_id_norm ++ post.map Cand.vd_id_norm)) :=
        List.perm_middle
      have hn2 := hperm.nodup hnodup
      simpa using hn2
    · rw [List.pairwise_cons]
      constructor
      · intro y hy
        have := hgood y (hmemf y hy)
        unfold GoodCand at this
        simp only
        omega
      · have hsub : (pre ++ post).Sublist (pre ++ x :: post) :=
          (List.sublist_cons_self x post).append_left pre
        rw [hf] at hsorted
        exact List.Pairwise.sublist hsub hsorted

theorem applyArbiter_norm_mem {llm : Except Unit String} {fused : List Cand} {c : Cand}
    (hc : c ∈ (applyArbiter llm fused).1) : ∃ d ∈ fused, c.vd_id_norm = d.vd_id_norm := by
  rcases applyArbiter_decomp llm fused with h | ⟨x, pre, post, hf, _, h⟩
  · rw [h] at hc; exact ⟨c, hc, rfl⟩
  · rw [h] at hc
    rcases List.mem_cons.mp hc with hc | hc
    · refine ⟨x, by rw [hf]; simp, by rw [hc]⟩
    · refine ⟨c, ?_, rfl⟩
      rw [hf]
      rcases List.mem_append.mp hc with hc | hc
      · exact List.mem_append.mpr (Or.inl hc)
      · exact List.mem_append.mpr (Or.inr (by simp [hc]))

theorem getSearchResults_ok_iff {fz : Fuzz} {db : Db} {llm : Except Unit String}
    {query qplace qauthor : String} {out : SearchOutput} :
    getSearchResults fz db llm query qplace qauthor = .ok out ↔
      ∃ r1 r2,
        executeRun1 fz db.q1 (buildFtsQueries (normalizeForFts query)).1
            (buildFtsQueries (normalizeForFts query)).2 (extractQueryYear query)
            (normalizeForFuzz query) qplace qauthor = .ok r1 ∧
        executeRun2 fz db.q2 (buildFtsQueries (normalizeForFts query)).2
            (extractQueryYear query) (normalizeForFuzz query) qauthor = .ok r2 ∧
        out = { final := (applyArbiter llm (fusedList (exclVd17 (extractQueryYear query))
                  (r1 ++ r2 ++ executeRun3 fz db.q3 (buildFtsQueries (normalizeForFts query)).2
                    (normalizeForFuzz query) query ++
                    executeRun4 fz db.q4 (normalizeForFts query) (normalizeForFuzz query)))).1,
                r1 := r1, r2 := r2,
                r3 := executeRun3 fz db.q3 (buildFtsQueries (normalizeForFts query)).2
                  (normalizeForFuzz query) query,
                r5 := executeRun4 fz db.q4 (normalizeForFts query) (normalizeForFuzz query),
                llm_winner := (applyArbiter llm (fusedList (exclVd17 (extractQueryYear query))
                  (r1 ++ r2 ++ executeRun3 fz db.q3 (buildFtsQueries (normalizeForFts query)).2
                    (normalizeForFuzz query) query ++
                    executeRun4 fz db.q4 (normalizeForFts query) (normalizeForFuzz query)))).2 } := by
  constructor
  · intro h
    simp only [getSearchResults] at h
    cases h1 : executeRun1 fz db.q1 (buildFtsQueries (normalizeForFts query)).1
        (buildFtsQueries (normalizeForFts query)).2 (extractQueryYear query)
        (normalizeForFuzz query) qplace qauthor with
    | error e => simp only [h1] at h; exact Except.noConfusion h
    | ok r1 =>
      simp only [h1] at h
      cases h2 : executeRun2 fz db.q2 (buildFtsQueries (normalizeForFts query)).2
          (extractQueryYear query) (normalizeForFuzz query) qauthor with
      | error e => simp only [h2] at h; exact Except.noConfusion h
      | ok r2 =>
        simp only [h2, Except.ok.injEq] at h
        exact ⟨r1, r2, rfl, rfl, h.symm⟩
  · intro ⟨r1, r2, h1, h2, hout⟩
    simp only [getSearchResults, h1, h2]
    rw [hout]

/-- The fused, deduplicated list the arbiter stage receives, expressed over
the per-strategy lists the pipeline returns. -/
def pipelineFused (fz : Fuzz) (db : Db) (query : String) (out : SearchOutput) : List Cand :=
  fusedList (exclVd17 (extractQueryYear query)) (out.r1 ++ out.r2 ++ out.r3 ++ out.r5)

theorem executeLlmJudgment_error (e : Unit) (top : List Cand) :
    executeLlmJudgment (.error e) top = none := by
  unfold executeLlmJudgment
  by_cases h : top = [] <;> simp [h]

theorem executeLlmJudgment_sentinel (top : List Cand) :
    executeLlmJudgment (.ok ("NONE")) top = none := by
  unfold executeLlmJudgment
  by_cases h : top = [] <;> simp [h]

theorem executeLlmJudgment_absent {wid : String} {top : List Cand}
    (hab : ∀ c ∈ top, c.vd_id ≠ wid) : executeLlmJudgment (.ok wid) top = none := by
  unfold executeLlmJudgment
  by_cases h : top = []
  · simp [h]
  · rw [if_neg h]
    dsimp only
    rw [if_neg]
    intro ⟨_, hany⟩
    obtain ⟨c, hc, he⟩ := List.any_eq_true.mp hany
    exact hab c hc (by simpa using he)

theorem executeLlmJudgment_present {wid : String} {top : List Cand} {c : Cand}
    (hw : wid ≠ "NONE") (hc : c ∈ top) (he : c.vd_id = wid) :
    executeLlmJudgment (.ok wid) top = some wid := by
  unfold executeLlmJudgment
  rw [if_neg (List.ne_nil_of_mem hc)]
  dsimp only
  rw [if_pos]
  exact ⟨hw, List.any_eq_true.mpr ⟨c, hc, by simpa using he⟩⟩

theorem applyArbiter_of_none {llm : Except Unit String} {fused : List Cand}
    (h : executeLlmJudgment llm (fused.take 25) = none) :
    applyArbiter llm fused = (fused, "-") := by
  unfold applyArbiter
  by_cases hf : fused = [] <;> simp [hf, h]

theorem applyArbiter_of_some {llm : Except Unit String} {fused : List Cand} {w : String}
    (h : executeLlmJudgment llm (fused.take 25) = some w) (hne : fused ≠ [])
    (hwne : w ≠ "") : applyArbiter llm fused = (promoteWinner w fused, w) := by
  unfold applyArbiter
  simp [hne, h, hwne]

/-- Claim C1: for every query the pipeline answers, the returned result list
satisfies the ResultSet invariant (every score lies in [0,100], no two
candidates share a normalized identifier, scores are non-increasing), and the
same invariant already holds for the fused list before the arbiter step. -/
theorem claim1_resultSet_invariant (fz : Fuzz) (db : Db) (llm : Except Unit String)
    (query qplace qauthor : String) (out : SearchOutput)
    (h : getSearchResults fz db llm query qplace qauthor = .ok out) :
    ResultInv (pipelineFused fz db query out) ∧ ResultInv out.final := by
  obtain ⟨r1, r2, h1, h2, hout⟩ := getSearchResults_ok_iff.mp h
  subst hout
  have hgood : ∀ c ∈ r1 ++ r2 ++
      executeRun3 fz db.q3 (buildFtsQueries (normalizeForFts query)).2
        (normalizeForFuzz query) query ++
      executeRun4 fz db.q4 (normalizeForFts query) (normalizeForFuzz query),
      GoodCand c := by
    intro c hc
    rcases List.mem_append.mp hc with hc | hc
    · rcases List.mem_append.mp hc with hc | hc
      · rcases List.mem_append.mp hc with hc | hc
        · exact executeRun1_good h1 c hc
        · exact executeRun2_good h2 c hc
      · exact executeRun3_good c hc
    · exact executeRun4_good c hc
  have hfinv : ResultInv (fusedList (exclVd17 (extractQueryYear query))
      (r1 ++ r2 ++
        executeRun3 fz db.q3 (buildFtsQueries (normalizeForFts query)).2
          (normalizeForFuzz query) query ++
        executeRun4 fz db.q4 (normalizeForFts query) (normalizeForFuzz query))) :=
    fusedList_inv hgood
  have hfgood : ∀ c ∈ fusedList (exclVd17 (extractQueryYear query))
      (r1 ++ r2 ++
        executeRun3 fz db.q3 (buildFtsQueries (normalizeForFts query)).2
          (normalizeForFuzz query) query ++
        executeRun4 fz db.q4 (normalizeForFts query) (normalizeForFuzz query)),
      GoodCand c := fun c hc => hgood c (fusedList_mem hc).1
  constructor
  · dsimp only [pipelineFused]
    exact hfinv
  · dsimp only
    exact promote_resultInv hfinv hfgood llm

/-- Claim C3: when the extracted year signal of a query is numeric and
exceeds 1700, no candidate of the final list carries the earlier-era
normalized identifier tag vd17. -/
theorem claim3_no_vd17 (fz : Fuzz) (db : Db) (llm : Except Unit String)
    (query qplace qauthor : String) (out : SearchOutput) (y : String)
    (h : getSearchResults fz db llm query qplace qauthor = .ok out)
    (hy : extractQueryYear query = some y)
    (hnum : pyIsDigitB y = true)
    (hgt : 1700 < (strToNat y : Int)) :
    ∀ c ∈ out.final, strStartsWith c.vd_id_norm ("vd17") = false := by
  obtain ⟨r1, r2, h1, h2, hout⟩ := getSearchResults_ok_iff.mp h
  subst hout
  intro c hc
  obtain ⟨d, hd, he⟩ := applyArbiter_norm_mem hc
  rw [he]
  have hmem := fusedList_mem hd
  have hne : ¬ y = "" := by
    intro he2
    subst he2
    exact absurd hnum (by decide)
  have hexcl : exclVd17 (extractQueryYear query) = true := by
    rw [hy]
    simp [exclVd17, hne, hnum, hgt]
  have h2x := hmem.2
  rw [hexcl] at h2x
  simpa [excludedCand] using h2x

/-- Claim C10: the arbiter stage neither adds nor removes candidates: the
final list either equals the fused list, or is the fused list with exactly
one candidate (the first match of the winning identifier) rescored to 100,
its origin retagged, and moved to the front while the relative order of all
other candidates is unchanged; the raw identifiers are a permutation of the
fused ones in both cases. -/
theorem claim10_arbiter_frame (fz : Fuzz) (db : Db) (llm : Except Unit String)
    (query qplace qauthor : String) (out : SearchOutput)
    (h : getSearchResults fz db llm query qplace qauthor = .ok out) :
    (out.final = pipelineFused fz db query out ∨
      ∃ x pre post, pipelineFused fz db query out = pre ++ x :: post ∧
        (∀ y ∈ pre, y.vd_id ≠ x.vd_id) ∧
        out.final = { vd_id := x.vd_id, vd_id_norm := x.vd_id_norm, score := 100,
                      source := x.source ++ "+LLM" } :: (pre ++ post)) ∧
    (out.final.map Cand.vd_id).Perm ((pipelineFused fz db query out).map Cand.vd_id) := by
  obtain ⟨r1, r2, h1, h2, hout⟩ := getSearchResults_ok_iff.mp h
  subst hout
  rcases applyArbiter_decomp llm (fusedList (exclVd17 (extractQueryYear query))
      (r1 ++ r2 ++
        executeRun3 fz db.q3 (buildFtsQueries (normalizeForFts query)).2
          (normalizeForFuzz query) query ++
        executeRun4 fz db.q4 (normalizeForFts query) (normalizeForFuzz query)))
    with hsame | ⟨x, pre, post, hf, hpre, hfin⟩
  · refine ⟨Or.inl ?_, ?_⟩
    · dsimp only [pipelineFused]
      exact hsame
    · dsimp only [pipelineFused]
      rw [hsame]
  · refine ⟨Or.inr ⟨x, pre, post, ?_, hpre, ?_⟩, ?_⟩
    · dsimp only [pipelineFused]
      exact hf
    · dsimp only
      exact hfin
    · dsimp only [pipelineFused]
      rw [hfin, hf]
      simp only [List.map_cons, List.map_append]
      exact List.perm_middle.symm

theorem runsConcat_good {fz : Fuzz} {db : Db} {query qplace qauthor : String}
    {r1 r2 : List Cand}
    (h1 : executeRun1 fz db.q1 (buildFtsQueries (normalizeForFts query)).1
        (buildFtsQueries (normalizeForFts query)).2 (extractQueryYear query)
        (normalizeForFuzz query) qplace qauthor = .ok r1)
    (h2 : executeRun2 fz db.q2 (buildFtsQueries (normalizeForFts query)).2
        (extractQueryYear query) (normalizeForFuzz query) qauthor = .ok r2) :
    ∀ c ∈ r1 ++ r2 ++
      executeRun3 fz db.q3 (buildFtsQueries (normalizeForFts query)).2
        (normalizeForFuzz query) query ++
      executeRun4 fz db.q4 (normalizeForFts query) (normalizeForFuzz query),
      GoodCand c := by
  intro c hc
  rcases List.mem_append.mp hc with hc | hc
  · rcases List.mem_append.mp hc with hc | hc
    · rcases List.mem_append.mp hc with hc | hc
      · exact executeRun1_good h1 c hc
      · exact executeRun2_good h2 c hc
    · exact executeRun3_good c hc
  · exact executeRun4_good c hc

/-- Claim C2: if the arbiter answers with an identifier present among the top
25 fused candidates, that candidate is rescored to 100, its origin tag gets
the arbiter suffix appended, and it becomes the first element of the final
list; if the arbiter raises, answers the sentinel NONE, or answers an
identifier absent from that candidate set, the fused ranking is returned
unchanged. -/
theorem claim2_arbiter_contract (fz : Fuzz) (db : Db) (llm : Except Unit String)
    (query qplace qauthor : String) (out : SearchOutput)
    (h : getSearchResults fz db llm query qplace qauthor = .ok out) :
    (∀ e, llm = .error e → out.final = pipelineFused fz db query out) ∧
    (llm = .ok ("NONE") → out.final = pipelineFused fz db query out) ∧
    (∀ wid, llm = .ok wid →
      (∀ c ∈ (pipelineFused fz db query out).take 25, c.vd_id ≠ wid) →
      out.final = pipelineFused fz db query out) ∧
    (∀ wid, llm = .ok wid → wid ≠ "NONE" →
      ∀ c ∈ (pipelineFused fz db query out).take 25, c.vd_id = wid →
      ∃ x pre post, pipelineFused fz db query out = pre ++ x :: post ∧
        x.vd_id = wid ∧ (∀ y ∈ pre, y.vd_id ≠ wid) ∧
        out.final = { vd_id := x.vd_id, vd_id_norm := x.vd_id_norm, score := 100,
                      source := x.source ++ "+LLM" } :: (pre ++ post)) := by
  obtain ⟨r1, r2, h1, h2, hout⟩ := getSearchResults_ok_iff.mp h
  subst hout
  refine ⟨?_, ?_, ?_, ?_⟩
  · intro e he
    subst he
    dsimp only [pipelineFused]
    rw [applyArbiter_of_none (executeLlmJudgment_error e _)]
  · intro he
    subst he
    dsimp only [pipelineFused]
    rw [applyArbiter_of_none (executeLlmJudgment_sentinel _)]
  · intro wid he hab
    subst he
    dsimp only [pipelineFused] at hab ⊢
    rw [applyArbiter_of_none (executeLlmJudgment_absent hab)]
  · intro wid he hwn c hc hcw
    subst he
    dsimp only [pipelineFused] at hc ⊢
    have hcf : c ∈ fusedList (exclVd17 (extractQueryYear query))
        (r1 ++ r2 ++
          executeRun3 fz db.q3 (buildFtsQueries (normalizeForFts query)).2
            (normalizeForFuzz query) query ++
          executeRun4 fz db.q4 (normalizeForFts query) (normalizeForFuzz query)) :=
      List.take_subset 25 _ hc
    have hcg : GoodCand c := runsConcat_good h1 h2 c (fusedList_mem hcf).1
    have hwid_ne : wid ≠ "" := by
      rw [← hcw]
      exact hcg.2.2
    have hFne : fusedList (exclVd17 (extractQueryYear query))
        (r1 ++ r2 ++
          executeRun3 fz db.q3 (buildFtsQueries (normalizeForFts query)).2
            (normalizeForFuzz query) query ++
          executeRun4 fz db.q4 (normalizeForFts query) (normalizeForFuzz query)) ≠ [] :=
      List.ne_nil_of_mem hcf
    have hj := executeLlmJudgment_present hwn hc hcw
    rw [applyArbiter_of_some hj hFne hwid_ne]
    dsimp only
    cases hpa : promoteAux wid (fusedList (exclVd17 (extractQueryYear query))
        (r1 ++ r2 ++
          executeRun3 fz db.q3 (buildFtsQueries (normalizeForFts query)).2
            (normalizeForFuzz query) query ++
          executeRun4 fz db.q4 (normalizeForFts query) (normalizeForFuzz query))) with
    | none => exact absurd hcw (promoteAux_none.mp hpa c hcf)
    | some pr =>
      obtain ⟨x, rest⟩ := pr
      obtain ⟨hxw, pre, post, hdec, hrest, hpre⟩ := promoteAux_some hpa
      refine ⟨x, pre, post, hdec, hxw, hpre, ?_⟩
      unfold promoteWinner
      rw [hpa, hrest]

instance exceptDecEq {ε α : Type} [DecidableEq ε] [DecidableEq α] :
    DecidableEq (Except ε α)
  | .error e, .error f =>
    match decEq e f with
    | isTrue h => isTrue (by rw [h])
    | isFalse h => isFalse (fun he => h (Except.error.inj he))
  | .error _, .ok _ => isFalse (fun he => Except.noConfusion he)
  | .ok _, .error _ => isFalse (fun he => Except.noConfusion he)
  | .ok x, .ok y =>
    match decEq x y with
    | isTrue h => isTrue (by rw [h])
    | isFalse h => isFalse (fun he => h (Except.ok.inj he))

/-- Constant similarity oracle used by the concrete scenarios. -/
def fzConst70 : Fuzz :=
  { tokenSetSim := fun _ _ => 70, partialSim := fun _ _ => 0, wSim := fun _ _ => 0 }

/-- Index oracle answering every query with no rows. -/
def dbEmpty : Db :=
  { q1 := fun _ _ => [], q2 := fun _ _ _ => [], q3 := fun _ => [], q4 := fun _ => [] }

/-- The empty pipeline output. -/
def outEmpty : SearchOutput :=
  { final := [], r1 := [], r2 := [], r3 := [], r5 := [], llm_winner := "-" }

/-- One catalog row for the promotion scenario. -/
def rowPeste : Row :=
  { author := "", title := "Peste", year := "", place := "", vd_id := "VD18 123" }

/-- Index oracle for the promotion scenario: the strict expression of the
query finds the row, everything else is empty. -/
def dbPromote : Db :=
  { q1 := fun q _ => if q = "frolich AND peste" then [rowPeste] else [],
    q2 := fun _ _ _ => [], q3 := fun _ => [], q4 := fun _ => [] }

/-- The candidate strategy 1 produces in the promotion scenario. -/
def candPeste : Cand :=
  { vd_id := "VD18 123", vd_id_norm := "vd18123", score := 70, source := "RUN_1" }

/-- The pipeline output of the promotion scenario: the arbiter names the only
candidate, which is promoted. -/
def outPromote : SearchOutput :=
  { final := [{ vd_id := "VD18 123", vd_id_norm := "vd18123", score := 100,
                source := "RUN_1+LLM" }],
    r1 := [candPeste], r2 := [], r3 := [], r5 := [], llm_winner := "VD18 123" }

/-- Witness for claim C1 at a concrete run of the pipeline. -/
theorem claim1_witness :
    ResultInv (pipelineFused fzConst70 dbEmpty ("mundus") outEmpty) ∧
      ResultInv outEmpty.final :=
  claim1_resultSet_invariant fzConst70 dbEmpty (.error ()) ("mundus") "" "" outEmpty
    (by decide)

/-- Witness for claim C2: at a concrete run the arbiter winner is rescored to
100, retagged and moved to the front. -/
theorem claim2_witness :
    ∃ x pre post,
      pipelineFused fzConst70 dbPromote ("Frölich De Peste 1680") outPromote =
        pre ++ x :: post ∧
      x.vd_id = ("VD18 123") ∧ (∀ y ∈ pre, y.vd_id ≠ ("VD18 123")) ∧
      outPromote.final = { vd_id := x.vd_id, vd_id_norm := x.vd_id_norm, score := 100,
                           source := x.source ++ "+LLM" } :: (pre ++ post) :=
  (claim2_arbiter_contract fzConst70 dbPromote (.ok ("VD18 123"))
      ("Frölich De Peste 1680") "" "" outPromote (by decide)).2.2.2
    ("VD18 123") rfl (by decide) candPeste (by decide) (by decide)

/-- Witness for claim C3 at a concrete query with year 1750. -/
theorem claim3_witness :
    outEmpty.final.all (fun c => !(strStartsWith c.vd_id_norm ("vd17"))) = true :=
  List.all_eq_true.mpr (fun c hc => by
    rw [Bool.not_eq_true']
    exact claim3_no_vd17 fzConst70 dbEmpty (.error ()) ("historia 1750") "" "" outEmpty
      ("1750") (by decide) (by decide) (by decide) (by decide) c hc)

/-- Witness for claim C10 at the concrete promotion scenario. -/
theorem claim10_witness :
    (outPromote.final = pipelineFused fzConst70 dbPromote ("Frölich De Peste 1680") outPromote ∨
      ∃ x pre post,
        pipelineFused fzConst70 dbPromote ("Frölich De Peste 1680") outPromote =
          pre ++ x :: post ∧
        (∀ y ∈ pre, y.vd_id ≠ x.vd_id) ∧
        outPromote.final = { vd_id := x.vd_id, vd_id_norm := x.vd_id_norm, score := 100,
                             source := x.source ++ "+LLM" } :: (pre ++ post)) ∧
    (outPromote.final.map Cand.vd_id).Perm
      ((pipelineFused fzConst70 dbPromote ("Frölich De Peste 1680") outPromote).map
        Cand.vd_id) :=
  claim10_arbiter_frame fzConst70 dbPromote (.ok ("VD18 123"))
    ("Frölich De Peste 1680") "" "" outPromote (by decide)

/-- Rows for the fusion tie scenario: two records with identical labels whose
raw identifiers normalize to the same key. -/
def rowMundA : Row :=
  { author := "", title := "Mundus", year := "", place := "", vd_id := "VD18 77" }

/-- The same record spelt with a separator, found by strategy 3; the spacing
keeps the strategy 3 era-preference bonus off so both strategies tie. -/
def rowMundB : Row :=
  { author := "", title := "Mundus", year := "", place := "", vd_id := "V D18 77" }

/-- Constant similarity oracle scoring every label pair 80. -/
def fzConst80 : Fuzz :=
  { tokenSetSim := fun _ _ => 80, partialSim := fun _ _ => 0, wSim := fun _ _ => 0 }

/-- Index oracle for the tie scenario: strategy 1 sees the first spelling,
strategy 3 the second. -/
def dbTie : Db :=
  { q1 := fun q _ => if q = "tres" then [rowMundA] else [],
    q2 := fun _ _ _ => [],
    q3 := fun q => if q = "tres" then [rowMundB] else [],
    q4 := fun _ => [] }

/-- The strategy 1 candidate of the tie scenario. -/
def candTieA : Cand :=
  { vd_id := "VD18 77", vd_id_norm := "vd1877", score := 80, source := "RUN_1" }

/-- The strategy 3 candidate of the tie scenario, same key and same score. -/
def candTieB : Cand :=
  { vd_id := "V D18 77", vd_id_norm := "vd1877", score := 80, source := "RUN_3" }

/-- The pipeline output of the tie scenario. -/
def outTie : SearchOutput :=
  { final := [candTieA], r1 := [candTieA], r2 := [], r3 := [candTieB], r5 := [],
    llm_winner := "-" }

/-- Claim C4 counterexample: strategies 1 and 3 produce candidates for the
same normalized key with equal scores, yet the fused survivor records only
the tag RUN_1 of the first strategy; the tag does not record the equally
scoring RUN_3, so the tag does not list the winning strategies on a tie. -/
theorem claim4_counterexample :
    getSearchResults fzConst80 dbTie (.error ()) ("Tres") "" "" = .ok outTie ∧
    candTieA.vd_id_norm = candTieB.vd_id_norm ∧
    candTieA.score = candTieB.score ∧
    candTieA.source ≠ candTieB.source ∧
    outTie.final = [candTieA] ∧
    (∀ c ∈ outTie.final, strContains c.source ("RUN_3") = false) := by
  refine ⟨by decide, by decide, by decide, by decide, by decide, by decide⟩

/-- Claim C4 amended: for every key, the fusion survivor comes from the
non-excluded candidates with that key, carries the highest score seen for
the key (so scores never decrease during fusion), and is exactly the first
candidate that attains that highest score, so on ties the origin tag records
only the earliest winning strategy. -/
theorem claim4_amended (excl : Bool) (l : List Cand) (k : String) (c : Cand)
    (h : lookupA k (fuseMap excl l) = some c) :
    c ∈ filterKey excl k l ∧ (∀ d ∈ filterKey excl k l, d.score ≤ c.score) ∧
      ∃ pre post, filterKey excl k l = pre ++ c :: post ∧ ∀ d ∈ pre, d.score < c.score := by
  rw [fuse_lookup] at h
  exact firstMax_spec h

/-- Witness for the amended claim C4 at the concrete tie scenario. -/
theorem claim4_witness :
    candTieA ∈ filterKey false ("vd1877") [candTieA, candTieB] ∧
    (∀ d ∈ filterKey false ("vd1877") [candTieA, candTieB], d.score ≤ candTieA.score) ∧
    ∃ pre post, filterKey false ("vd1877") [candTieA, candTieB] = pre ++ candTieA :: post ∧
      ∀ d ∈ pre, d.score < candTieA.score :=
  claim4_amended false [candTieA, candTieB] ("vd1877") candTieA (by decide)

/-- The catalog row of the author-bonus scenario: its author matches the
query title words, not the query author. -/
def rowGoethe : Row :=
  { author := "Goethe", title := "Abhandlung Farben", year := "", place := "",
    vd_id := "VD18 51" }

/-- Similarity oracle of the author-bonus scenario: base similarity 60; the
partial similarity is 0 against the empty string and 100 for the author
fragment against any other text, the values rapidfuzz returns for these
strings. -/
def fzAuthor : Fuzz :=
  { tokenSetSim := fun _ _ => 60,
    partialSim := fun a b => if b = "" then 0 else if a = "goethe" then 100 else 0,
    wSim := fun _ _ => 0 }

/-- Index oracle answering the strict expression of the scenario. -/
def dbAuthor : String → Option String → List Row :=
  fun q _ => if q = "x" then [rowGoethe] else []

/-- The candidate strategy 1 produces in the author-bonus scenario. -/
def candGoethe : Cand :=
  { vd_id := "VD18 51", vd_id_norm := "vd1851", score := 75, source := "RUN_1" }

/-- Claim C5 counterexample: the query author is empty, so the partial
similarity of the hit author to the query author is 0, far below 90, and the
claim predicts no author bonus; yet the produced score is 75 = 60 + 15,
because the code compares the hit author against the full normalized query
text, where the title words match. -/
theorem claim5_counterexample :
    executeRun1 fzAuthor dbAuthor ("x") "" none ("goethe schriften") "" "" =
      .ok [candGoethe] ∧
    fzAuthor.tokenSetSim ("goethe schriften")
      (normalizeForFuzz (pyStrip (rowGoethe.author ++ " " ++ rowGoethe.title))) = 60 ∧
    candGoethe.score = 75 ∧
    fzAuthor.partialSim (normalizeForFuzz rowGoethe.author) (normalizeForFuzz ("")) < 90 := by
  refine ⟨by decide, by decide, by decide, by decide⟩

/-- Claim C5 amended: every accepted strategy 1 candidate scores the year
adjusted base plus exactly 15 when the hit author is nonempty and its
partial similarity to the full normalized fuzzy query (not to the query
author) is at least 90, plus exactly 10 under the stated place condition,
and no other author or place adjustment is made. -/
theorem claim5_amended (fz : Fuzz) (qy : Option String) (nqf qp : String) (strict : Bool)
    (row : Row) (c : Cand) (h : run1Row fz qy nqf qp strict row = .ok (some c)) :
    ∃ b : Int,
      run1YearAdj qy row.year strict
        (fz.tokenSetSim nqf (normalizeForFuzz (pyStrip (row.author ++ " " ++ row.title)))) =
          .ok (some b) ∧
      MIN_ACCEPT_SCORE ≤ b +
        (if row.author ≠ "" ∧ 90 ≤ fz.partialSim (normalizeForFuzz row.author) nqf
         then AUTHOR_BONUS else 0) +
        (if qp ≠ "" ∧ row.place ≠ "" ∧
            85 < fz.partialSim (normalizeForFuzz qp) (normalizeForFuzz row.place)
         then PLACE_BONUS else 0) ∧
      c = mkCand row.vd_id
        (b + (if row.author ≠ "" ∧ 90 ≤ fz.partialSim (normalizeForFuzz row.author) nqf
              then AUTHOR_BONUS else 0)
           + (if qp ≠ "" ∧ row.place ≠ "" ∧
                85 < fz.partialSim (normalizeForFuzz qp) (normalizeForFuzz row.place)
              then PLACE_BONUS else 0)) ("RUN_1") := by
  simp only [run1Row] at h
  split at h
  · exact Option.noConfusion (Except.ok.inj h)
  · split at h
    · exact Except.noConfusion h
    · exact Option.noConfusion (Except.ok.inj h)
    · rename_i s0 heq
      split at h
      · rename_i hacc
        rw [Except.ok.injEq, Option.some.injEq] at h
        subst h
        refine ⟨s0, heq, ?_, ?_⟩
        · unfold run1AuthorBonus run1PlaceBonus at hacc
          exact hacc
        · unfold run1AuthorBonus run1PlaceBonus
          rfl
      · exact Option.noConfusion (Except.ok.inj h)

/-- Witness for the amended claim C5 at the concrete author-bonus scenario. -/
theorem claim5_witness :
    ∃ b : Int,
      run1YearAdj none rowGoethe.year true
        (fzAuthor.tokenSetSim ("goethe schriften")
          (normalizeForFuzz (pyStrip (rowGoethe.author ++ " " ++ rowGoethe.title)))) =
          .ok (some b) ∧
      MIN_ACCEPT_SCORE ≤ b +
        (if rowGoethe.author ≠ "" ∧
            90 ≤ fzAuthor.partialSim (normalizeForFuzz rowGoethe.author) ("goethe schriften")
         then AUTHOR_BONUS else 0) +
        (if ("" : String) ≠ "" ∧ rowGoethe.place ≠ "" ∧
            85 < fzAuthor.partialSim (normalizeForFuzz ("")) (normalizeForFuzz rowGoethe.place)
         then PLACE_BONUS else 0) ∧
      candGoethe = mkCand rowGoethe.vd_id
        (b + (if rowGoethe.author ≠ "" ∧
                90 ≤ fzAuthor.partialSim (normalizeForFuzz rowGoethe.author) ("goethe schriften")
              then AUTHOR_BONUS else 0)
           + (if ("" : String) ≠ "" ∧ rowGoethe.place ≠ "" ∧
                85 < fzAuthor.partialSim (normalizeForFuzz ("")) (normalizeForFuzz rowGoethe.place)
              then PLACE_BONUS else 0)) ("RUN_1") :=
  claim5_amended fzAuthor none ("goethe schriften") "" true rowGoethe candGoethe (by decide)

/-- Follows the spec wording for normalize-for-index, for comparison with the
source function: Unicode decomposition, combining mark removal, lower-casing,
ligature mapping, replacement of everything outside lower-case ASCII
alphanumerics and spaces, whitespace collapse, and nothing else. -/
def normalizeForIndexSpec (s : String) : String :=
  let l := (s.data.map nfkdChar).join
  let l := l.filter (fun c => !isCombiningChar c)
  let l := l.map pyLowerChar
  let l := (l.map ligatureChar).join
  let l := l.map charClassChar
  ofChars (wsCollapse l)

/-- Claim C6 counterexample: the index normalizer of the source also strips
the trailing s of long word runs and also expands abbreviations, so it
differs from the spec description of normalize-for-index on concrete inputs. -/
theorem claim6_counterexample :
    normalizeForFts ("wolfgangs") = ("wolfgang") ∧
    normalizeForIndexSpec ("wolfgangs") = ("wolfgangs") ∧
    normalizeForFts ("hist") = ("historie") ∧
    normalizeForIndexSpec ("hist") = ("hist") ∧
    normalizeForFts ("wolfgangs") ≠ normalizeForIndexSpec ("wolfgangs") := by
  refine ⟨by decide, by decide, by decide, by decide, by decide⟩

/-- Claim C6 amended: normalize-for-index equals the shared basic
normalization, which already performs the punctuation collapse and the
trailing suffix strip, followed by abbreviation expansion and whitespace
collapse; normalize-for-fuzzy is exactly the shared basic normalization,
as the concrete evaluations illustrate on both functions. -/
theorem claim6_amended :
    (∀ t, normalizeForFts t = wsCollapseStr (expandAbbreviations (normalizeForFuzz t))) ∧
    normalizeForFuzz ("wolfgangs") = ("wolfgang") ∧
    normalizeForFts ("wolfgangs") = ("wolfgang") ∧
    normalizeForFuzz ("anno;domini") = ("anno domini") ∧
    normalizeForFts ("anno;domini") = ("anno domini") :=
  ⟨fun _ => rfl, by decide, by decide, by decide, by decide⟩

/-- First candidate of the order scenario. -/
def candOrdA : Cand :=
  { vd_id := "VD18 1", vd_id_norm := "vd181", score := 70, source := "RUN_1" }

/-- Second candidate of the order scenario: different key, equal score. -/
def candOrdB : Cand :=
  { vd_id := "VD18 2", vd_id_norm := "vd182", score := 70, source := "RUN_3" }

/-- Claim C7 counterexample: the same multiset of candidates fed to fusion in
the two possible orders yields two different final sorted sequences, because
ties are broken by first-seen order and the first-seen order depends on the
feeding order. -/
theorem claim7_counterexample :
    ([candOrdA, candOrdB] : List Cand).Perm [candOrdB, candOrdA] ∧
    fusedList false [candOrdA, candOrdB] ≠ fusedList false [candOrdB, candOrdA] := by
  refine ⟨List.Perm.swap candOrdB candOrdA [], by decide⟩

/-- Claim C7 amended: what is order-independent about fusion is the score
map: permuting the candidate stream never changes the surviving score of any
key (the sequence itself may permute equal-score candidates and, within one
key, may pick a different equal-score representative). -/
theorem claim7_amended (excl : Bool) {l l2 : List Cand} (hperm : l.Perm l2) (k : String) :
    Option.map Cand.score (lookupA k (fuseMap excl l)) =
      Option.map Cand.score (lookupA k (fuseMap excl l2)) := by
  rw [fuse_lookup, fuse_lookup, firstMax_score, firstMax_score]
  exact scoreMax_perm (hperm.filter _)

/-- Witness for the amended claim C7 at the concrete order scenario. -/
theorem claim7_witness :
    Option.map Cand.score (lookupA ("vd181") (fuseMap false [candOrdA, candOrdB])) =
      Option.map Cand.score (lookupA ("vd181") (fuseMap false [candOrdB, candOrdA])) :=
  claim7_amended false (List.Perm.swap candOrdB candOrdA []) ("vd181")

theorem digit_not_space {c : Char} (h : isDigitChar c = true) : isPySpaceChar c = false := by
  by_contra hs
  rw [Bool.not_eq_false] at hs
  simp only [isPySpaceChar, Bool.or_eq_true, decide_eq_true_eq] at hs
  rcases hs with ((((hs | hs) | hs) | hs) | hs) | hs <;>
    (subst hs; exact absurd h (by decide))

theorem trimWs_digits {l : List Char} (hne : l ≠ []) (hall : l.all isDigitChar = true) :
    trimWs l = l := by
  unfold trimWs
  have hds : l.dropWhile isPySpaceChar = l := by
    cases l with
    | nil => rfl
    | cons c t =>
      rw [List.dropWhile_cons]
      have hc : isDigitChar c = true := List.all_eq_true.mp hall c (by simp)
      simp [digit_not_space hc]
  rw [hds]
  have hrev : l.reverse.dropWhile isPySpaceChar = l.reverse := by
    cases hr : l.reverse with
    | nil => rfl
    | cons c t =>
      have hc : c ∈ l := by
        rw [← List.mem_reverse, hr]
        simp
      have hcd : isDigitChar c = true := List.all_eq_true.mp hall c hc
      rw [List.dropWhile_cons]
      simp [digit_not_space hcd]
  rw [hrev, List.reverse_reverse]

theorem pyToInt_of_isDigit {s : String} (h : pyIsDigitB s = true) :
    pyToInt s = some ((digitsValNat s.data : Int)) := by
  have hne : s.data ≠ [] := by
    intro he
    unfold pyIsDigitB at h
    rw [he] at h
    exact absurd h (by decide)
  have hall : s.data.all isDigitChar = true := by
    unfold pyIsDigitB at h
    exact (Bool.and_eq_true_iff.mp h).2
  unfold pyToInt
  rw [trimWs_digits hne hall]
  cases hd : s.data with
  | nil => exact absurd hd hne
  | cons c t =>
    rw [hd] at hall
    have hc : isDigitChar c = true := List.all_eq_true.mp hall c (by simp)
    have hc1 : c ≠ '-' := by
      intro he
      rw [he] at hc
      exact absurd hc (by decide)
    have hc2 : c ≠ '+' := by
      intro he
      rw [he] at hc
      exact absurd hc (by decide)
    split
    · rename_i heq
      exact List.noConfusion heq
    · rename_i rest heq
      exact absurd (List.head_eq_of_cons_eq heq) hc1
    · rename_i rest heq
      exact absurd (List.head_eq_of_cons_eq heq) hc2
    · rw [if_pos hall]

theorem lexLe_nil_right {l : List Char} (h : l ≠ []) : lexLe l [] = false := by
  cases l with
  | nil => exact absurd rfl h
  | cons c t => rfl

theorem natStr_data_ne_nil (n : Nat) : (natStr n).data ≠ [] := by
  unfold natStr
  by_cases h0 : n = 0
  · rw [if_pos h0]
    exact fun he => List.noConfusion he
  · rw [if_neg h0]
    obtain ⟨m, hm⟩ := Nat.exists_eq_succ_of_ne_zero h0
    subst hm
    show (ofChars (natDigitsGo (m + 1 + 1) (m + 1))).data ≠ []
    show natDigitsGo (m + 1 + 1) (m + 1) ≠ []
    show natDigitsGo (m + 1) ((m + 1) / 10) ++ [digitChar ((m + 1) % 10)] ≠ []
    simp

theorem intStr_data_ne_nil (i : Int) : (intStr i).data ≠ [] := by
  unfold intStr
  by_cases hneg : i < 0
  · rw [if_pos hneg, String.data_append]
    intro he
    exact absurd (List.append_eq_nil.mp he).1 (fun hx => List.noConfusion hx)
  · rw [if_neg hneg]
    exact natStr_data_ne_nil _

theorem sqliteTextLe_empty_right (t : String) (h : t.data ≠ []) :
    sqliteTextLe t ("") = false := by
  unfold sqliteTextLe
  exact lexLe_nil_right h

theorem collectRows_total {f : Row → Except Unit (Option Cand)} :
    ∀ {rows : List Row}, (∀ r ∈ rows, ∃ v, f r = .ok v) →
      ∃ out, collectRows f rows = .ok out := by
  intro rows
  induction rows with
  | nil => exact fun _ => ⟨[], rfl⟩
  | cons r rs ih =>
    intro hf
    obtain ⟨v, hv⟩ := hf r (by simp)
    obtain ⟨out, hout⟩ := ih (fun r2 h2 => hf r2 (by simp [h2]))
    cases v with
    | some c => exact ⟨c :: out, by simp [collectRows, hv, hout]⟩
    | none => exact ⟨out, by simp [collectRows, hv, hout]⟩

theorem ok_of_ite (P : Prop) [Decidable P] (a b : Option Cand) :
    ∃ v, (if P then (Except.ok a : Except Unit (Option Cand)) else Except.ok b) = .ok v := by
  by_cases h : P
  · exact ⟨a, if_pos h⟩
  · exact ⟨b, if_neg h⟩

theorem run2Row_total {fz : Fuzz} {nqf nqa : String} {y : Int} {row : Row}
    (hy : pyIsDigitB row.year = true) : ∃ v, run2Row fz nqf nqa y row = .ok v := by
  unfold run2Row
  by_cases h1 : row.vd_id = ""
  · rw [if_pos h1]
    exact ⟨none, rfl⟩
  · rw [if_neg h1]
    by_cases h2 : row.author ≠ ""
    · rw [if_pos h2]
      exact ⟨none, rfl⟩
    · rw [if_neg h2]
      by_cases h3 : 90 < fz.partialSim nqa (normalizeForFuzz (pyStrip row.title))
      · rw [if_pos h3]
        rw [pyToInt_of_isDigit hy]
        exact ok_of_ite _ _ _
      · rw [if_neg h3]
        exact ⟨none, rfl⟩

theorem executeRun2_total {fz : Fuzz} {db2 : String → String → String → List Row}
    {broad_q : String} {qy : Option String} {nqf qa : String}
    (hq : ∀ s, qy = some s → pyIsDigitB s = true)
    (hdb : ∀ q lo hi, ∀ r ∈ db2 q lo hi, (r.year = "" ∨ pyIsDigitB r.year = true) ∧
      sqliteTextLe lo r.year = true ∧ sqliteTextLe r.year hi = true) :
    ∃ res, executeRun2 fz db2 broad_q qy nqf qa = .ok res := by
  unfold executeRun2
  split
  · exact ⟨[], rfl⟩
  · rename_i hcond
    have hex : ∃ s, qy = some s ∧ s ≠ "" := by
      cases qy with
      | none => exact absurd (Or.inr (Or.inl rfl)) hcond
      | some s =>
        refine ⟨s, rfl, ?_⟩
        intro he
        exact hcond (Or.inr (Or.inr (Or.inl (by rw [he]))))
    obtain ⟨s, hqy, _⟩ := hex
    have hsd : pyIsDigitB s = true := hq s hqy
    rw [hqy]
    show ∃ res, (match pyToInt ((some s).getD ("")) with
      | none => (Except.error () : Except Unit (List Cand))
      | some y =>
        if (normalizeForFuzz qa).length < 4 then .ok []
        else collectRows (run2Row fz nqf (normalizeForFuzz qa) y)
          (db2 broad_q (intStr (y - 3)) (intStr (y + 3)))) = .ok res
    have hgd : (some s).getD ("") = s := rfl
    rw [hgd, pyToInt_of_isDigit hsd]
    dsimp only
    split
    · exact ⟨[], rfl⟩
    · apply collectRows_total
      intro r hr
      have hprops := hdb broad_q (intStr ((digitsValNat s.data : Int) - 3))
        (intStr ((digitsValNat s.data : Int) + 3)) r hr
      rcases hprops.1 with hre | hrd
      · exfalso
        have hw := hprops.2.1
        rw [hre] at hw
        rw [sqliteTextLe_empty_right _ (intStr_data_ne_nil _)] at hw
        exact Bool.noConfusion hw
      · exact run2Row_total hrd

theorem run1YearAdj_nondigit {qy : String} {ry : String} {strict : Bool} {b : Int}
    (h : pyIsDigitB ry = false) :
    run1YearAdj (some qy) ry strict b = .ok (some b) := by
  unfold run1YearAdj
  dsimp only
  rw [if_neg]
  intro ⟨_, _, hd⟩
  rw [h] at hd
  exact Bool.noConfusion hd

/-- The catalog row of the malformed-year scenario: its year passes the
textual year window of strategy 2 but is not a plain integer. -/
def rowBadYear : Row :=
  { author := "", title := "Peste", year := "1699a", place := "", vd_id := "VD18 5" }

/-- Similarity oracle making the strategy 2 author-in-title test succeed. -/
def fzPartial95 : Fuzz :=
  { tokenSetSim := fun _ _ => 0, partialSim := fun _ _ => 95, wSim := fun _ _ => 60 }

/-- Index oracle returning the malformed-year row for any window. -/
def db2Bad : String → String → String → List Row := fun _ _ _ => [rowBadYear]

/-- A well-formed variant of the row. -/
def rowGoodYear : Row :=
  { author := "", title := "Peste", year := "1699", place := "", vd_id := "VD18 6" }

/-- Index oracle honouring the textual year window over the well-formed row,
as the SQL WHERE clause of strategy 2 does. -/
def db2Good : String → String → String → List Row :=
  fun _ lo hi =>
    if sqliteTextLe lo ("1699") = true ∧ sqliteTextLe ("1699") hi = true
    then [rowGoodYear] else []

/-- Claim C8 counterexample: a record whose year text passes the textual
year window of strategy 2 but is not numeric makes execute_run_2 raise at
int(db_year), instead of merely disabling the year-dependent adjustment. -/
theorem claim8_counterexample :
    executeRun2 fzPartial95 db2Bad ("x") (some ("1699")) ("peste") ("frolich") = .error () ∧
    sqliteTextLe (intStr ((1699 : Int) - 3)) (rowBadYear.year) = true ∧
    sqliteTextLe (rowBadYear.year) (intStr ((1699 : Int) + 3)) = true ∧
    pyIsDigitB (rowBadYear.year) = false := by
  refine ⟨by decide, by decide, by decide, by decide⟩

/-- Claim C8 amended: strategies 1, 3 and 4 process records with a
non-numeric year without error (strategy 1 merely disables its year logic,
strategies 3 and 4 never read the year); strategy 2 raises on a fetched
record whose year is non-numeric, but its textual year window rejects the
empty year the index builder stores for records without a usable year, so on
builder-produced records (year empty or numeric) strategy 2 never raises. -/
theorem claim8_amended :
    (∀ (fz : Fuzz) (qy : String) (nqf qp : String) (strict : Bool) (row : Row),
      pyIsDigitB row.year = false →
      run1Row fz (some qy) nqf qp strict row = run1Row fz none nqf qp strict row) ∧
    (∀ y : Int, sqliteTextLe (intStr (y - 3)) ("") = false) ∧
    (∀ (fz : Fuzz) (nqf : String) (ents : List String) (row : Row) (y1 y2 : String),
      run3Row fz nqf ents { row with year := y1 } = run3Row fz nqf ents { row with year := y2 }) ∧
    (∀ (fz : Fuzz) (nqf : String) (row : Row) (y1 y2 : String),
      run4Row fz nqf { row with year := y1 } = run4Row fz nqf { row with year := y2 }) ∧
    (∀ (fz : Fuzz) (db2 : String → String → String → List Row) (broad_q : String)
        (qy : Option String) (nqf qa : String),
      (∀ s, qy = some s → pyIsDigitB s = true) →
      (∀ q lo hi, ∀ r ∈ db2 q lo hi, (r.year = "" ∨ pyIsDigitB r.year = true) ∧
        sqliteTextLe lo r.year = true ∧ sqliteTextLe r.year hi = true) →
      ∃ res, executeRun2 fz db2 broad_q qy nqf qa = .ok res) := by
  refine ⟨?_, ?_, ?_, ?_, ?_⟩
  · intro fz qy nqf qp strict row h
    simp only [run1Row]
    rw [run1YearAdj_nondigit h]
    rfl
  · intro y
    exact sqliteTextLe_empty_right _ (intStr_data_ne_nil _)
  · intro fz nqf ents row y1 y2
    rfl
  · intro fz nqf row y1 y2
    rfl
  · intro fz db2 broad_q qy nqf qa hq hdb
    exact executeRun2_total hq hdb

/-- Witness for the amended claim C8 at concrete inputs. -/
theorem claim8_witness :
    run1Row fzPartial95 (some ("1700")) ("peste") "" true rowBadYear =
      run1Row fzPartial95 none ("peste") "" true rowBadYear ∧
    sqliteTextLe (intStr ((1699 : Int) - 3)) ("") = false ∧
    run3Row fzPartial95 ("peste") [] { rowGoodYear with year := ("x") } =
      run3Row fzPartial95 ("peste") [] { rowGoodYear with year := ("y") } ∧
    run4Row fzPartial95 ("peste") { rowGoodYear with year := ("x") } =
      run4Row fzPartial95 ("peste") { rowGoodYear with year := ("y") } ∧
    (∃ res, executeRun2 fzPartial95 db2Good ("x") (some ("1699")) ("peste") ("frolich") =
      .ok res) :=
  ⟨claim8_amended.1 fzPartial95 ("1700") ("peste") "" true rowBadYear (by decide),
   claim8_amended.2.1 1699,
   claim8_amended.2.2.1 fzPartial95 ("peste") [] rowGoodYear ("x") ("y"),
   claim8_amended.2.2.2.1 fzPartial95 ("peste") rowGoodYear ("x") ("y"),
   claim8_amended.2.2.2.2 fzPartial95 db2Good ("x") (some ("1699")) ("peste") ("frolich")
     (by intro s hs; rw [Option.some.injEq] at hs; subst hs; decide)
     (by
       intro q lo hi r hr
       unfold db2Good at hr
       split at hr
       · rename_i hc
         rw [List.mem_singleton] at hr
         subst hr
         exact ⟨Or.inr (by decide), hc.1, hc.2⟩
       · cases hr)⟩

/-- The catalog row of the digit-token scenario. -/
def rowNum : Row :=
  { author := "", title := "12345", year := "", place := "", vd_id := "VD18 9" }

/-- Similarity oracle reflecting that token_set similarity of two equal
digit strings is 100. -/
def fzNum : Fuzz :=
  { tokenSetSim := fun a b => if a = ("12345") ∧ b = ("12345") then 100 else 0,
    partialSim := fun _ _ => 0, wSim := fun _ _ => 0 }

/-- Index oracle of the digit-token scenario: only the rare-term query of
strategy 4 finds the row. -/
def dbNum : Db :=
  { q1 := fun _ _ => [], q2 := fun _ _ _ => [], q3 := fun _ => [],
    q4 := fun q => if q = "12345" then [rowNum] else [] }

/-- The candidate strategy 4 produces in the digit-token scenario. -/
def candNum : Cand :=
  { vd_id := "VD18 9", vd_id_norm := "vd189", score := 100, source := "RUN_4" }

/-- The pipeline output of the digit-token scenario. -/
def outNum : SearchOutput :=
  { final := [candNum], r1 := [], r2 := [], r3 := [], r5 := [candNum], llm_winner := "-" }

/-- Claim C9 counterexample: for the query 12345 no token survives query
planning (both expressions are empty), yet strategy 4 re-tokenizes the
normalized query with its own filter, which does not drop pure digit tokens,
queries the index and returns a candidate, so not all four strategies
return the empty list. -/
theorem claim9_counterexample :
    buildFtsQueries (normalizeForFts ("12345")) = ("", "") ∧
    getSearchResults fzNum dbNum (.error ()) ("12345") "" "" = .ok outNum ∧
    outNum.r5 ≠ [] := by
  refine ⟨by decide, by decide, by decide⟩

theorem executeRun1_noq (fz : Fuzz) (db1 : String → Option String → List Row)
    (qy : Option String) (nqf qp qa : String) :
    executeRun1 fz db1 ("") ("") qy nqf qp qa = .ok [] := by
  unfold executeRun1
  rw [if_neg (by simp)]
  dsimp only
  rw [if_neg]
  · rfl
  · intro ⟨_, hb⟩
    exact hb rfl

theorem executeRun2_noq (fz : Fuzz) (db2 : String → String → String → List Row)
    (qy : Option String) (nqf qa : String) :
    executeRun2 fz db2 ("") qy nqf qa = .ok [] := by
  unfold executeRun2
  rw [if_pos (Or.inl rfl)]

theorem executeRun3_noq (fz : Fuzz) (db3 : String → List Row) (nqf raw : String) :
    executeRun3 fz db3 ("") nqf raw = [] := by
  unfold executeRun3
  rw [if_pos rfl]

/-- Claim C9 amended: when every normalized token is a stop word, a pure
digit token or shorter than three characters, both expressions are empty and
strategies 1, 2 and 3 return the empty list without error; strategy 4 also
returns the empty list provided additionally that no pure digit token of
length at least five exists, since its own token filter keeps such tokens. -/
theorem claim9_amended (fz : Fuzz) (db1 : String → Option String → List Row)
    (db2 : String → String → String → List Row) (db3 db4 : String → List Row)
    (query_year : Option String) (nfts nqf qplace qauthor raw : String)
    (hP : ∀ t ∈ splitWs nfts, t ∈ STOPWORDS ∨ pyIsDigitB t = true ∨
      t.length < MIN_FTS_TOKEN_LEN)
    (hD : ∀ t ∈ splitWs nfts, pyIsDigitB t = true → t.length < 5) :
    buildFtsQueries nfts = ("", "") ∧
    executeRun1 fz db1 (buildFtsQueries nfts).1 (buildFtsQueries nfts).2 query_year
      nqf qplace qauthor = .ok [] ∧
    executeRun2 fz db2 (buildFtsQueries nfts).2 query_year nqf qauthor = .ok [] ∧
    executeRun3 fz db3 (buildFtsQueries nfts).2 nqf raw = [] ∧
    executeRun4 fz db4 nfts nqf = [] := by
  have hq : buildFtsQueries nfts = ("", "") := by
    unfold buildFtsQueries
    have hfil : (splitWs nfts).filter
        (fun t => !(decide (t ∈ STOPWORDS) || pyIsDigitB t ||
          decide (t.length < MIN_FTS_TOKEN_LEN))) = [] := by
      rw [List.filter_eq_nil_iff]
      intro t ht
      rcases hP t ht with h | h | h <;> simp [h]
    rw [hfil]
    decide
  have ht4 : run4Tokens nfts = [] := by
    unfold run4Tokens
    rw [List.filter_eq_nil_iff]
    intro t ht hp
    have hp2 : 5 ≤ t.length ∧ ¬ t ∈ STOPWORDS := by simpa using hp
    rcases hP t ht with h | h | h
    · exact hp2.2 h
    · have := hD t ht h
      omega
    · unfold MIN_FTS_TOKEN_LEN at h
      omega
  refine ⟨hq, ?_, ?_, ?_, ?_⟩
  · rw [hq]
    exact executeRun1_noq fz db1 query_year nqf qplace qauthor
  · rw [hq]
    exact executeRun2_noq fz db2 query_year nqf qauthor
  · rw [hq]
    exact executeRun3_noq fz db3 nqf raw
  · unfold executeRun4
    rw [if_pos ht4]

/-- Witness for the amended claim C9 at a concrete token list of stop words,
a short token and a short digit token. -/
theorem claim9_witness :
    buildFtsQueries ("der und 12") = ("", "") ∧
    executeRun1 fzConst70 dbEmpty.q1 (buildFtsQueries ("der und 12")).1
      (buildFtsQueries ("der und 12")).2 none ("") ("") ("") = .ok [] ∧
    executeRun2 fzConst70 dbEmpty.q2 (buildFtsQueries ("der und 12")).2 none ("") ("") =
      .ok [] ∧
    executeRun3 fzConst70 dbEmpty.q3 (buildFtsQueries ("der und 12")).2 ("") ("") = [] ∧
    executeRun4 fzConst70 dbEmpty.q4 ("der und 12") ("") = [] :=
  claim9_amended fzConst70 dbEmpty.q1 dbEmpty.q2 dbEmpty.q3 dbEmpty.q4 none
    ("der und 12") ("") ("") ("") ("") (by decide) (by decide)

end VdEl
